import Mathlib

/-!
Verification development for the pseudocode interpreter in
src/lib/pseudocode-interpreter.tsx (class PseudocodeInterpreter).

The interpreter is embedded shallowly:
* source strings are modelled as lists of characters (`Str`);
* JavaScript numbers are modelled as `JSNum` (exact rationals plus the
  IEEE special points Infinity, -Infinity and NaN);
* runtime values (`unknown` in the source) are modelled by `Value`;
* the dynamic `new Function('return ' + text)()` evaluation used by
  `evaluateSimpleExpression` / `evaluateCondition` is modelled by `jsEval`,
  a small evaluator for the JavaScript expression fragment that the
  rewritten texts can contain; any thrown error (syntax or reference)
  is modelled as `none`;
* the mutable interpreter object is modelled by an explicit state `St`
  threaded through the statement handlers; the asynchronous input
  callback is modelled by a scripted queue of input strings inside the
  state (an absent provider behaves as the empty queue: the read yields
  the empty string, exactly as in the source);
* recursion of `executeLine` into nested blocks is made total with an
  explicit fuel parameter; `none` means the fuel ran out.

Each regular-expression match of the source is embedded as a dedicated
parsing function whose doc comment quotes the original pattern.
-/

set_option maxRecDepth 100000

abbrev Str := List Char

/-- Irregular entries of the Unicode lowercase mapping on
`À`-`ɏ`: upper-case letters whose lower-case image is neither
`+0x20` (the Latin-1 rule) nor `+1` (the alternating-pair rule).  Each
pair is `(code point, lower-case code point)`; the list covers `Ÿ`
(0x178 → 0xFF), the three `Ǆ`-style digraphs and `Ǳ` (upper case maps
two ahead, past the titlecase form), and the letters whose lower case
sits in the IPA-extensions block or elsewhere. -/
def jsLowerIrregular : List (Nat × Nat) :=
  [(0x178, 0xFF), (0x181, 0x253), (0x186, 0x254), (0x189, 0x256), (0x18A, 0x257),
   (0x18E, 0x1DD), (0x18F, 0x259), (0x190, 0x25B), (0x193, 0x260), (0x194, 0x263),
   (0x196, 0x269), (0x197, 0x268), (0x19C, 0x26F), (0x19D, 0x272), (0x19F, 0x275),
   (0x1A6, 0x280), (0x1A9, 0x283), (0x1AE, 0x288), (0x1B1, 0x28A), (0x1B2, 0x28B),
   (0x1B7, 0x292), (0x1C4, 0x1C6), (0x1C7, 0x1C9), (0x1CA, 0x1CC), (0x1F1, 0x1F3),
   (0x1F6, 0x195), (0x1F7, 0x1BF), (0x220, 0x19E), (0x23A, 0x2C65), (0x23D, 0x19A),
   (0x23E, 0x2C66), (0x243, 0x180), (0x244, 0x289), (0x245, 0x28C)]

/-- Code points in `ƀ`-`ɏ` whose lower case is the next code
point but which sit outside the regular alternating ranges handled in
`jsLowerChar` (this includes the titlecase digraphs `ǅ`, `ǈ`, `ǋ`,
`ǲ`). -/
def jsLowerPlusOneExtra : List Nat :=
  [0x182, 0x184, 0x187, 0x18B, 0x191, 0x198, 0x1A0, 0x1A2, 0x1A4, 0x1A7,
   0x1AC, 0x1AF, 0x1B3, 0x1B5, 0x1B8, 0x1BC, 0x1C5, 0x1C8, 0x1CB, 0x1F2,
   0x1F4, 0x23B, 0x241]

/-- `String.prototype.toLowerCase()` on one character, over ASCII plus
the accented letter alphabet `À`-`ɏ` that the interpreter's
identifier regexes admit (`À-ɏ`); code points above that alphabet are
left unchanged by the embedding.  The result is a string because `İ`
(0x130) lower-cases to the two code points `i` (0x69) plus combining
dot above (0x307), exactly as in JavaScript. -/
def jsLowerChar (c : Char) : Str :=
  let n := c.toNat
  if 65 ≤ n ∧ n ≤ 90 then [Char.ofNat (n + 32)]
  else if n < 0xC0 ∨ 0x24F < n then [c]
  else if n ≤ 0xDE then (if n = 0xD7 then [c] else [Char.ofNat (n + 0x20)])
  else if n ≤ 0xFF then [c]
  else if n = 0x130 then [Char.ofNat 0x69, Char.ofNat 0x307]
  else if (0x100 ≤ n ∧ n ≤ 0x137 ∧ n % 2 = 0) ∨ (0x139 ≤ n ∧ n ≤ 0x147 ∧ n % 2 = 1) ∨
      (0x14A ≤ n ∧ n ≤ 0x177 ∧ n % 2 = 0) ∨ (0x179 ≤ n ∧ n ≤ 0x17D ∧ n % 2 = 1) ∨
      (0x1CD ≤ n ∧ n ≤ 0x1DB ∧ n % 2 = 1) ∨ (0x1DE ≤ n ∧ n ≤ 0x1EE ∧ n % 2 = 0) ∨
      (0x1F8 ≤ n ∧ n ≤ 0x21E ∧ n % 2 = 0) ∨ (0x222 ≤ n ∧ n ≤ 0x232 ∧ n % 2 = 0) ∨
      (0x246 ≤ n ∧ n ≤ 0x24E ∧ n % 2 = 0) ∨ jsLowerPlusOneExtra.contains n then
    [Char.ofNat (n + 1)]
  else
    match jsLowerIrregular.find? (fun p => p.1 == n) with
    | some p => [Char.ofNat p.2]
    | none => [c]

/-- `s.toLowerCase()`. -/
def toLowerStr (s : Str) : Str := (s.map jsLowerChar).flatten

/-- JavaScript whitespace (`\s`), restricted to the characters that can
occur in a source line. -/
def isWS (c : Char) : Bool := c = ' ' ∨ c = '\t' ∨ c = '\n' ∨ c = '\r'

def trimL : Str → Str
  | [] => []
  | c :: cs => if isWS c then trimL cs else c :: cs

/-- `String.prototype.trim()`. -/
def trimStr (s : Str) : Str := (trimL (trimL s.reverse).reverse)

/-- `s.startsWith(p)` (first argument is the scrutinee `s`). -/
def startsWithStr : Str → Str → Bool
  | _, [] => true
  | [], _ :: _ => false
  | c :: cs, p :: ps => c == p && startsWithStr cs ps

/-- `s.includes(sub)`. -/
def containsSub : Str → Str → Bool
  | [], sub => sub.isEmpty
  | c :: cs, sub => startsWithStr (c :: cs) sub || containsSub cs sub

/-- `String.prototype.split(sep)` for a one-character separator;
like in JavaScript, empty fields are kept. -/
def splitOnC (sep : Char) : Str → List Str
  | [] => [[]]
  | c :: cs =>
    match splitOnC sep cs with
    | [] => if c = sep then [[], []] else [[c]]
    | r :: rs => if c = sep then [] :: r :: rs else (c :: r) :: rs

def isDigitC (c : Char) : Bool := '0' ≤ c ∧ c ≤ '9'

/-- JavaScript `\w`: ASCII letters, digits and underscore. -/
def isAsciiWord (c : Char) : Bool :=
  isDigitC c ∨ ('a' ≤ c ∧ c ≤ 'z') ∨ ('A' ≤ c ∧ c ≤ 'Z') ∨ c = '_'

/-- The accented-letter range `À-ɏ` that the interpreter adds to
`\w` in its identifier character classes. -/
def isAccented (c : Char) : Bool := 0xC0 ≤ c.toNat ∧ c.toNat ≤ 0x24F

/-- Character class `[\wÀ-ɏ]`. -/
def isWordExt (c : Char) : Bool := isAsciiWord c ∨ isAccented c

def takeDigits : Str → Str × Str
  | [] => ([], [])
  | c :: cs =>
    if isDigitC c then
      match takeDigits cs with
      | (d, r) => (c :: d, r)
    else ([], c :: cs)

def digitsVal (ds : Str) : Nat := ds.foldl (fun a c => a * 10 + (c.toNat - 48)) 0

/-- Exact rational numbers in canonical form (coprime numerator and
positive denominator), with kernel-computable arithmetic.  (Mathlib's
`Rat` operations are compiled and do not reduce definitionally, so this
development carries its own fraction type.) -/
structure Frac where
  num : Int
  den : Nat
deriving DecidableEq

instance (n : Nat) : OfNat Frac n := ⟨⟨(n : Int), 1⟩⟩

def intPow (b : Int) : Nat → Int
  | 0 => 1
  | n+1 => intPow b n * b

def fOfInt (i : Int) : Frac := ⟨i, 1⟩

def fOfNat (n : Nat) : Frac := ⟨(n : Int), 1⟩

/-- Canonicalize `n / d` (`d ≠ 0` at every call site). -/
def fNorm (n : Int) (d : Nat) : Frac :=
  let g := Nat.gcd n.natAbs d
  if g = 0 then ⟨0, 1⟩ else ⟨n.tdiv (g : Int), d / g⟩

def fAdd (a b : Frac) : Frac := fNorm (a.num * b.den + b.num * a.den) (a.den * b.den)

def fNeg (a : Frac) : Frac := ⟨-a.num, a.den⟩

def fSub (a b : Frac) : Frac := fAdd a (fNeg b)

def fMul (a b : Frac) : Frac := fNorm (a.num * b.num) (a.den * b.den)

def fInv (a : Frac) : Frac :=
  if 0 < a.num then ⟨(a.den : Int), a.num.toNat⟩
  else if a.num < 0 then ⟨-(a.den : Int), (-a.num).toNat⟩
  else ⟨0, 1⟩

def fDiv (a b : Frac) : Frac := fMul a (fInv b)

def fPow (a : Frac) (n : Nat) : Frac := ⟨intPow a.num n, Nat.pow a.den n⟩

def fLt (a b : Frac) : Bool := a.num * b.den < b.num * a.den

def fLe (a b : Frac) : Bool := a.num * b.den ≤ b.num * a.den

def fIsPos (a : Frac) : Bool := 0 < a.num

def fIsNeg (a : Frac) : Bool := a.num < 0

def fAbs (a : Frac) : Frac := ⟨(a.num.natAbs : Int), a.den⟩

/-- Truncation toward zero, as JavaScript `%` requires. -/
def fTrunc (a : Frac) : Int := a.num.tdiv (a.den : Int)

def pow10 (k : Nat) : Frac := ⟨(Nat.pow 10 k : Int), 1⟩

/-- A JavaScript number: an exact rational or one of the IEEE special
points.  The embedded fragment performs exact rational arithmetic, which
agrees with IEEE doubles on all numerals the interpreted programs build. -/
inductive JSNum where
  | fin : Frac → JSNum
  | pinf : JSNum
  | ninf : JSNum
  | nan : JSNum
deriving DecidableEq

/-- `parseFloat`: skips leading whitespace, accepts an optional sign, the
literal `Infinity`, and a decimal numeral with optional fraction and
exponent; it parses the longest numeric prefix and returns NaN when no
numeric prefix exists. -/
def parseFloatJS (s : Str) : JSNum :=
  let t := trimL s
  let signed : Bool × Str :=
    match t with
    | '-' :: r => (true, r)
    | '+' :: r => (false, r)
    | _ => (false, t)
  let sign := signed.1
  let t1 := signed.2
  if startsWithStr t1 "Infinity".data then (if sign then .ninf else .pinf)
  else
    let ipr := takeDigits t1
    let ip := ipr.1
    let fpr := match ipr.2 with
      | '.' :: r => takeDigits r
      | r => ([], r)
    let fp := fpr.1
    if ip = [] ∧ fp = [] then .nan
    else
      let base : Frac := fAdd (fOfNat (digitsVal ip)) (fDiv (fOfNat (digitsVal fp)) (pow10 fp.length))
      let ex : Bool × Str := match fpr.2 with
        | 'e' :: '-' :: r => (true, (takeDigits r).1)
        | 'E' :: '-' :: r => (true, (takeDigits r).1)
        | 'e' :: '+' :: r => (false, (takeDigits r).1)
        | 'E' :: '+' :: r => (false, (takeDigits r).1)
        | 'e' :: r => (false, (takeDigits r).1)
        | 'E' :: r => (false, (takeDigits r).1)
        | _ => (false, [])
      let withExp :=
        if ex.2 = [] then base
        else if ex.1 then fDiv base (pow10 (digitsVal ex.2))
        else fMul base (pow10 (digitsVal ex.2))
      .fin (if sign then fNeg withExp else withExp)

def natToStrAux : Nat → Nat → Str
  | 0, _ => []
  | f+1, n =>
    if n < 10 then [Char.ofNat (48 + n)]
    else natToStrAux f (n / 10) ++ [Char.ofNat (48 + n % 10)]

def natToStr (n : Nat) : Str := natToStrAux (n + 1) n

/-- Decimal expansion of a proper fraction `n / d`, up to 20 places
(exact for every terminating decimal the embedded programs construct). -/
def fracDigits : Nat → Nat → Nat → Str
  | 0, _, _ => []
  | f+1, n, d =>
    if n = 0 then []
    else Char.ofNat (48 + n * 10 / d) :: fracDigits f (n * 10 % d) d

/-- Decimal rendering of a rational, matching JavaScript number printing
on integers and terminating decimals. -/
def ratToStr (q : Frac) : Str :=
  let neg := fIsNeg q
  let n := q.num.natAbs
  let ip := n / q.den
  let rest := n % q.den
  let frac := fracDigits 20 rest q.den
  (if neg then ['-'] else []) ++ natToStr ip ++
    (if frac = [] then [] else '.' :: frac)

/-- `String(n)` for a number. -/
def numToStr : JSNum → Str
  | .fin q => ratToStr q
  | .pinf => "Infinity".data
  | .ninf => "-Infinity".data
  | .nan => "NaN".data

/-- A runtime value of the interpreter (`unknown` in the source):
numbers, strings, booleans, `null` (the default for unknown declared
types), `undefined`, and arrays (`dimension` variables). -/
inductive Value where
  | num : JSNum → Value
  | str : Str → Value
  | bool : Bool → Value
  | nullV : Value
  | undef : Value
  | arr : List Value → Value

mutual

/-- `String(value)`: the coercion applied when a variable's value is
spliced into an expression or written to the output. -/
def valueToStr : Value → Str
  | .num n => numToStr n
  | .str s => s
  | .bool b => if b then "true".data else "false".data
  | .nullV => "null".data
  | .undef => "undefined".data
  | .arr vs => valueListJoin vs

/-- `Array.prototype.join(',')` as performed by `String(array)`:
`null` and `undefined` elements render as the empty string. -/
def valueListJoin : List Value → Str
  | [] => []
  | [v] =>
    (match v with
     | .nullV => []
     | .undef => []
     | w => valueToStr w)
  | v :: vs =>
    (match v with
     | .nullV => []
     | .undef => []
     | w => valueToStr w) ++ ',' :: valueListJoin vs

end

/-- Escape a string body the way `JSON.stringify` does. -/
def jsonEscape : Str → Str
  | [] => []
  | c :: cs =>
    (if c = '"' then ['\\', '"']
     else if c = '\\' then ['\\', '\\']
     else if c = '\n' then ['\\', 'n']
     else if c = '\t' then ['\\', 't']
     else if c = '\r' then ['\\', 'r']
     else [c]) ++ jsonEscape cs

mutual

/-- `JSON.stringify(value)` as used by the condition evaluator's variable
substitution.  NaN and the infinities serialize as `null`; `undefined`
at top level renders as the text `undefined` (the coercion performed by
`String.prototype.replace` on an `undefined` replacement). -/
def jsonStringify : Value → Str
  | .num n =>
    (match n with
     | .fin q => ratToStr q
     | _ => "null".data)
  | .str s => '"' :: jsonEscape s ++ ['"']
  | .bool b => if b then "true".data else "false".data
  | .nullV => "null".data
  | .undef => "undefined".data
  | .arr vs => '[' :: jsonArrJoin vs ++ [']']

def jsonArrJoin : List Value → Str
  | [] => []
  | [v] =>
    (match v with
     | .undef => "null".data
     | w => jsonStringify w)
  | v :: vs =>
    (match v with
     | .undef => "null".data
     | w => jsonStringify w) ++ ',' :: jsonArrJoin vs

end

/- IEEE-style arithmetic on `JSNum`.  Finite arithmetic is exact; the
special points follow the JavaScript rules needed by the embedded
fragment. -/

def numNeg : JSNum → JSNum
  | .fin q => .fin (fNeg q)
  | .pinf => .ninf
  | .ninf => .pinf
  | .nan => .nan

def numAdd : JSNum → JSNum → JSNum
  | .fin a, .fin b => .fin (fAdd a b)
  | .nan, _ => .nan
  | _, .nan => .nan
  | .pinf, .ninf => .nan
  | .ninf, .pinf => .nan
  | .pinf, _ => .pinf
  | _, .pinf => .pinf
  | .ninf, _ => .ninf
  | _, .ninf => .ninf

def numSub (a b : JSNum) : JSNum := numAdd a (numNeg b)

def numMul : JSNum → JSNum → JSNum
  | .fin a, .fin b => .fin (fMul a b)
  | .nan, _ => .nan
  | _, .nan => .nan
  | .pinf, .pinf => .pinf
  | .pinf, .ninf => .ninf
  | .ninf, .pinf => .ninf
  | .ninf, .ninf => .pinf
  | .pinf, .fin b => if b = 0 then .nan else if fIsPos b then .pinf else .ninf
  | .fin a, .pinf => if a = 0 then .nan else if fIsPos a then .pinf else .ninf
  | .ninf, .fin b => if b = 0 then .nan else if fIsPos b then .ninf else .pinf
  | .fin a, .ninf => if a = 0 then .nan else if fIsPos a then .ninf else .pinf

def numDiv : JSNum → JSNum → JSNum
  | .fin a, .fin b =>
    if b = 0 then (if a = 0 then .nan else if fIsPos a then .pinf else .ninf)
    else .fin (fDiv a b)
  | .nan, _ => .nan
  | _, .nan => .nan
  | .pinf, .pinf => .nan
  | .pinf, .ninf => .nan
  | .ninf, .pinf => .nan
  | .ninf, .ninf => .nan
  | .pinf, .fin b => if fIsNeg b then .ninf else .pinf
  | .ninf, .fin b => if fIsNeg b then .pinf else .ninf
  | .fin _, .pinf => .fin 0
  | .fin _, .ninf => .fin 0

/-- JavaScript `%` (sign follows the dividend): `a - b * trunc(a / b)`. -/
def numMod : JSNum → JSNum → JSNum
  | .fin a, .fin b => if b = 0 then .nan else .fin (fSub a (fMul b (fOfInt (fTrunc (fDiv a b)))))
  | .fin a, .pinf => .fin a
  | .fin a, .ninf => .fin a
  | _, _ => .nan

/-- JavaScript `**`, exact on finite bases with integer exponents;
fractional exponents of finite bases are outside the embedded fragment
and are modelled as NaN. -/
def numPow : JSNum → JSNum → JSNum
  | b, .fin e =>
    if e = 0 then .fin 1
    else
      match b with
      | .fin q =>
        if e.den = 1 then
          if 0 ≤ e.num then .fin (fPow q e.num.toNat)
          else if q = 0 then .pinf
          else .fin (fInv (fPow q (-e.num).toNat))
        else .nan
      | .pinf => if 0 < e.num then .pinf else .fin 0
      | .ninf =>
        if 0 < e.num then
          (if e.den = 1 ∧ e.num % 2 = 1 then .ninf else .pinf)
        else .fin 0
      | .nan => .nan
  | _, .nan => .nan
  | .nan, _ => .nan
  | .fin q, .pinf => if q = 1 ∨ q = fNeg 1 then .nan else if fLt 1 (fAbs q) then .pinf else .fin 0
  | .fin q, .ninf => if q = 1 ∨ q = fNeg 1 then .nan else if fLt 1 (fAbs q) then .fin 0 else .pinf
  | .pinf, .pinf => .pinf
  | .pinf, .ninf => .fin 0
  | .ninf, .pinf => .pinf
  | .ninf, .ninf => .fin 0

def numLt : JSNum → JSNum → Bool
  | .fin a, .fin b => fLt a b
  | .ninf, .fin _ => true
  | .fin _, .pinf => true
  | .ninf, .pinf => true
  | _, _ => false

def numLe : JSNum → JSNum → Bool
  | .nan, _ => false
  | _, .nan => false
  | a, b => !numLt b a

/-- IEEE equality: NaN is not equal to anything, including itself. -/
def numEq : JSNum → JSNum → Bool
  | .fin a, .fin b => a.num * b.den == b.num * a.den
  | .pinf, .pinf => true
  | .ninf, .ninf => true
  | _, _ => false

/-- JavaScript truthiness (`Boolean(v)`). -/
def truthy : Value → Bool
  | .num n => !(numEq n (.fin 0) || n == .nan)
  | .str s => !s.isEmpty
  | .bool b => b
  | .nullV => false
  | .undef => false
  | .arr _ => true

/-- Exponent suffix of a full-string numeral: sign and a nonempty digit
run that must exhaust the string. -/
def numExpSuffix (base : Frac) (neg : Bool) (r : Str) : JSNum :=
  let es : Bool × Str :=
    match r with
    | '-' :: r2 => (true, r2)
    | '+' :: r2 => (false, r2)
    | _ => (false, r)
  let dg := takeDigits es.2
  if dg.1 = [] ∨ dg.2 ≠ [] then .nan
  else
    let v := if es.1 then fDiv base (pow10 (digitsVal dg.1)) else fMul base (pow10 (digitsVal dg.1))
    .fin (if neg then fNeg v else v)

/-- `Number(string)`: the whole (trimmed) string must be a numeral;
the empty string is 0.  Hexadecimal literals are outside the fragment. -/
def numberFromString (s : Str) : JSNum :=
  let t := trimStr s
  if t = [] then .fin 0
  else
    let signed : Bool × Str :=
      match t with
      | '-' :: r => (true, r)
      | '+' :: r => (false, r)
      | _ => (false, t)
    if signed.2 = "Infinity".data then (if signed.1 then .ninf else .pinf)
    else
      let ipr := takeDigits signed.2
      let fpr := match ipr.2 with
        | '.' :: r => takeDigits r
        | r => ([], r)
      if ipr.1 = [] ∧ fpr.1 = [] then .nan
      else
        let base : Frac := fAdd (fOfNat (digitsVal ipr.1)) (fDiv (fOfNat (digitsVal fpr.1)) (pow10 fpr.1.length))
        match fpr.2 with
        | [] => .fin (if signed.1 then fNeg base else base)
        | 'e' :: r => numExpSuffix base signed.1 r
        | 'E' :: r => numExpSuffix base signed.1 r
        | _ => .nan

/-- `Number(v)` coercion for the value kinds of the interpreter. -/
def toNumberJS : Value → JSNum
  | .num n => n
  | .bool b => .fin (if b then 1 else 0)
  | .nullV => .fin 0
  | .undef => .nan
  | .str s => numberFromString s
  | .arr vs => numberFromString (valueToStr (.arr vs))

/-- `ToPrimitive` for the interpreter's value kinds: arrays convert to
their joined string, everything else is already primitive. -/
def toPrimJS : Value → Value
  | .arr vs => .str (valueToStr (.arr vs))
  | v => v

def isStrV : Value → Bool
  | .str _ => true
  | _ => false

/-- JavaScript strict equality on the interpreter's value kinds (two
distinct array objects are never identical). -/
def strictEq : Value → Value → Bool
  | .num a, .num b => numEq a b
  | .str a, .str b => a == b
  | .bool a, .bool b => a == b
  | .nullV, .nullV => true
  | .undef, .undef => true
  | _, _ => false

/-- JavaScript loose equality `==` on the fragment: same-kind values
compare strictly, `null == undefined`, and mixed kinds compare through
numeric coercion. -/
def looseEq : Value → Value → Bool
  | .num a, .num b => numEq a b
  | .str a, .str b => a == b
  | .bool a, .bool b => a == b
  | .nullV, .nullV => true
  | .undef, .undef => true
  | .nullV, .undef => true
  | .undef, .nullV => true
  | .nullV, _ => false
  | _, .nullV => false
  | .undef, _ => false
  | _, .undef => false
  | a, b => numEq (toNumberJS a) (toNumberJS b)

/-- Lexicographic string comparison, as JavaScript `<` on two strings. -/
def strLt : Str → Str → Bool
  | [], [] => false
  | [], _ :: _ => true
  | _ :: _, [] => false
  | a :: as, b :: bs => a < b || (a == b && strLt as bs)

/-- A token of the JavaScript expression fragment. -/
inductive Tok where
  | num : Frac → Tok
  | str : Str → Tok
  | id : Str → Tok
  | op : Str → Tok
deriving DecidableEq

def unescapeChar (c : Char) : Char :=
  if c = 'n' then '\n' else if c = 't' then '\t' else if c = 'r' then '\r' else c

/-- Lex a quoted string literal after its opening quote; `none` models an
unterminated literal (a syntax error). -/
def lexString (q : Char) : Str → Option (Str × Str)
  | [] => none
  | c :: cs =>
    if c = q then some ([], cs)
    else if c = '\\' then
      match cs with
      | [] => none
      | e :: cs2 => (lexString q cs2).map (fun br => (unescapeChar e :: br.1, br.2))
    else (lexString q cs).map (fun br => (c :: br.1, br.2))

/-- Identifier characters of the fragment; `.` is folded into the
identifier so that member chains such as `Math.sqrt` lex as one name
(which the evaluator then rejects, see `jsEval`). -/
def isIdentChar (c : Char) : Bool := isWordExt c ∨ c = '$' ∨ c = '.'

def isIdentStart (c : Char) : Bool := isAsciiWord c ∧ ¬ isDigitC c ∨ isAccented c ∨ c = '$'

def ratOfParts (ip fp : Str) : Frac :=
  fAdd (fOfNat (digitsVal ip)) (fDiv (fOfNat (digitsVal fp)) (pow10 fp.length))

/-- Numeric literal including an optional exponent part; returns the
value and the rest of the input. -/
def lexNumber (s : Str) : Frac × Str :=
  let ipr := takeDigits s
  let fpr := match ipr.2 with
    | '.' :: r => takeDigits r
    | r => ([], r)
  let base := ratOfParts ipr.1 fpr.1
  match fpr.2 with
  | 'e' :: '-' :: r =>
    (match takeDigits r with
     | ([], _) => (base, fpr.2)
     | (d, r2) => (fDiv base (pow10 (digitsVal d)), r2))
  | 'e' :: '+' :: r =>
    (match takeDigits r with
     | ([], _) => (base, fpr.2)
     | (d, r2) => (fMul base (pow10 (digitsVal d)), r2))
  | 'e' :: r =>
    (match takeDigits r with
     | ([], _) => (base, fpr.2)
     | (d, r2) => (fMul base (pow10 (digitsVal d)), r2))
  | 'E' :: '-' :: r =>
    (match takeDigits r with
     | ([], _) => (base, fpr.2)
     | (d, r2) => (fDiv base (pow10 (digitsVal d)), r2))
  | 'E' :: '+' :: r =>
    (match takeDigits r with
     | ([], _) => (base, fpr.2)
     | (d, r2) => (fMul base (pow10 (digitsVal d)), r2))
  | 'E' :: r =>
    (match takeDigits r with
     | ([], _) => (base, fpr.2)
     | (d, r2) => (fMul base (pow10 (digitsVal d)), r2))
  | r => (base, r)

def headIsDigit : Str → Bool
  | d :: _ => isDigitC d
  | [] => false

def takeIdent : Str → Str × Str
  | [] => ([], [])
  | c :: cs =>
    if isIdentChar c then
      match takeIdent cs with
      | (i, r) => (c :: i, r)
    else ([], c :: cs)

/-- The operator tokens of the fragment, longest first. -/
def opList : List Str :=
  ["===".data, "!==".data, "**".data, "==".data, "!=".data, "<=".data,
   ">=".data, "&&".data, "||".data, "+".data, "-".data, "*".data, "/".data,
   "%".data, "(".data, ")".data, "<".data, ">".data, "!".data, "=".data,
   ",".data, "[".data, "]".data]

def findOp (s : Str) : Option Str :=
  opList.find? (fun o => startsWithStr s o)

/-- Tokenizer; `none` models a lexical `SyntaxError`. -/
def tokenize : Nat → Str → Option (List Tok)
  | 0, _ => none
  | _, [] => some []
  | f+1, c :: cs =>
    if isWS c then tokenize f cs
    else if isDigitC c then
      match lexNumber (c :: cs) with
      | (q, r) => (tokenize f r).map (Tok.num q :: ·)
    else if c = '.' ∧ headIsDigit cs then
      match lexNumber (c :: cs) with
      | (q, r) => (tokenize f r).map (Tok.num q :: ·)
    else if c = '"' ∨ c = '\'' then
      match lexString c cs with
      | none => none
      | some (b, r) => (tokenize f r).map (Tok.str b :: ·)
    else if isIdentStart c then
      match takeIdent (c :: cs) with
      | (i, r) => (tokenize f r).map (Tok.id i :: ·)
    else
      match findOp (c :: cs) with
      | some o => (tokenize f (List.drop o.length (c :: cs))).map (Tok.op o :: ·)
      | none => none

/-- Binding powers of the binary operators: `(left, right)`; `**` is
right-associative. -/
def opPrec (o : Str) : Option (Nat × Nat) :=
  if o = "||".data then some (4, 5)
  else if o = "&&".data then some (5, 6)
  else if o = "===".data ∨ o = "!==".data ∨ o = "==".data ∨ o = "!=".data then some (9, 10)
  else if o = "<".data ∨ o = ">".data ∨ o = "<=".data ∨ o = ">=".data then some (10, 11)
  else if o = "+".data ∨ o = "-".data then some (12, 13)
  else if o = "*".data ∨ o = "/".data ∨ o = "%".data then some (13, 14)
  else if o = "**".data then some (14, 14)
  else none

/-- Semantics of one binary operator application. -/
def applyBin (o : Str) (a b : Value) : Option Value :=
  if o = "||".data then some (if truthy a then a else b)
  else if o = "&&".data then some (if truthy a then b else a)
  else if o = "===".data then some (.bool (strictEq a b))
  else if o = "!==".data then some (.bool (!strictEq a b))
  else if o = "==".data then some (.bool (looseEq a b))
  else if o = "!=".data then some (.bool (!looseEq a b))
  else if o = "+".data then
    let pa := toPrimJS a
    let pb := toPrimJS b
    if isStrV pa ∨ isStrV pb then some (.str (valueToStr pa ++ valueToStr pb))
    else some (.num (numAdd (toNumberJS pa) (toNumberJS pb)))
  else if o = "-".data then some (.num (numSub (toNumberJS a) (toNumberJS b)))
  else if o = "*".data then some (.num (numMul (toNumberJS a) (toNumberJS b)))
  else if o = "/".data then some (.num (numDiv (toNumberJS a) (toNumberJS b)))
  else if o = "%".data then some (.num (numMod (toNumberJS a) (toNumberJS b)))
  else if o = "**".data then some (.num (numPow (toNumberJS a) (toNumberJS b)))
  else
    let pa := toPrimJS a
    let pb := toPrimJS b
    let cmp : Option (Bool × Bool) :=  -- (lt, le) of pa, pb
      match pa, pb with
      | .str x, .str y => some (strLt x y, !strLt y x)
      | _, _ =>
        let na := toNumberJS pa
        let nb := toNumberJS pb
        some (numLt na nb, numLe na nb)
    match cmp with
    | some c =>
      if o = "<".data then some (.bool c.1)
      else if o = "<=".data then some (.bool c.2)
      else if o = ">".data then
        (match pa, pb with
         | .str x, .str y => some (.bool (strLt y x))
         | _, _ => some (.bool (numLt (toNumberJS pb) (toNumberJS pa))))
      else if o = ">=".data then
        (match pa, pb with
         | .str x, .str y => some (.bool (!strLt x y))
         | _, _ => some (.bool (numLe (toNumberJS pb) (toNumberJS pa))))
      else none
    | none => none

mutual

/-- Primary / unary-prefix expression of the fragment.  Identifiers that
are not one of the global constants of the fragment model a thrown
`ReferenceError`, i.e. `none`. -/
def parsePrimary : Nat → List Tok → Option (Value × List Tok)
  | 0, _ => none
  | _+1, .num q :: r => some (.num (.fin q), r)
  | _+1, .str s :: r => some (.str s, r)
  | _+1, .id s :: r =>
    if s = "true".data then some (.bool true, r)
    else if s = "false".data then some (.bool false, r)
    else if s = "null".data then some (.nullV, r)
    else if s = "undefined".data then some (.undef, r)
    else if s = "NaN".data then some (.num .nan, r)
    else if s = "Infinity".data then some (.num .pinf, r)
    else none
  | f+1, .op o :: r =>
    if o = "(".data then
      match parseExprP f 0 r with
      | some (v, .op c :: r2) => if c = ")".data then some (v, r2) else none
      | _ => none
    else if o = "!".data then
      (parsePrimary f r).map (fun vr => (.bool (!truthy vr.1), vr.2))
    else if o = "-".data then
      (parsePrimary f r).map (fun vr => (.num (numNeg (toNumberJS vr.1)), vr.2))
    else if o = "+".data then
      (parsePrimary f r).map (fun vr => (.num (toNumberJS vr.1), vr.2))
    else none
  | _+1, [] => none

/-- Precedence-climbing loop over binary operators. -/
def parseBin : Nat → Nat → Value → List Tok → Option (Value × List Tok)
  | 0, _, _, _ => none
  | f+1, minPrec, lhs, ts =>
    match ts with
    | .op o :: r =>
      (match opPrec o with
       | some p =>
         if p.1 < minPrec then some (lhs, ts)
         else
           match parseExprP f p.2 r with
           | none => none
           | some (rhs, r2) =>
             match applyBin o lhs rhs with
             | none => none
             | some v => parseBin f minPrec v r2
       | none => some (lhs, ts))
    | _ => some (lhs, ts)

def parseExprP : Nat → Nat → List Tok → Option (Value × List Tok)
  | 0, _, _ => none
  | f+1, minPrec, ts =>
    match parsePrimary f ts with
    | none => none
    | some (v, r) => parseBin f minPrec v r

end

/-- The model of `new Function('return ' + text)()`: tokenize and
evaluate the fragment; `none` models any thrown error (`SyntaxError`,
`ReferenceError`, …).  Member calls (`Math.sqrt(…)`), the comma
operator, assignment inside expressions and short-circuits that skip an
erroneous operand are outside the embedded fragment and also yield
`none`. -/
def jsEval (s : Str) : Option Value :=
  match tokenize (s.length + 1) s with
  | none => none
  | some ts =>
    match parseExprP (3 * ts.length + 3) 0 ts with
    | some (v, []) => some v
    | _ => none

/-- Case-insensitive literal prefix match, the `i` flag of the source's
regexes: two characters are equivalent when they fold to the same
lower-case image (for the alphabet in play — ASCII keywords and the
accented identifier letters — this coincides with the canonicalisation
the regex engine applies). -/
def startsWithCI : Str → Str → Bool
  | _, [] => true
  | [], _ :: _ => false
  | c :: cs, p :: ps => jsLowerChar c == jsLowerChar p && startsWithCI cs ps

def headIsWordExt : Str → Bool
  | c :: _ => isWordExt c
  | [] => false

def headIsAsciiWord : Str → Bool
  | c :: _ => isAsciiWord c
  | [] => false

/-- One interpreter variable: original-case display name, lower-cased
declared type, current value. -/
structure Variable where
  name : Str
  ty : Str
  value : Value

abbrev VarList := List (Str × Variable)

/-- `this.variables.get(key)`. -/
def lookupVar (vars : VarList) (k : Str) : Option Variable :=
  (vars.find? (fun p => p.1 == k)).map (·.2)

/-- `this.variables.set(key, v)`: a JavaScript `Map` keeps the original
insertion position on overwrite. -/
def mapSet (k : Str) (v : Variable) : VarList → VarList
  | [] => [(k, v)]
  | (k', v') :: rest => if k' == k then (k, v) :: rest else (k', v') :: mapSet k v rest

/-- Global case-insensitive whole-word replacement, embedding
`new RegExp('(?<![\\wÀ-ɏ])' + name + '(?![\\wÀ-ɏ])', 'gi')`.
(`escapedName` in the source only escapes regex metacharacters, which
cannot occur in a stored variable key, so escaping is the identity
here.)  The boolean argument tracks whether the previous character of
the original string is a word character (the lookbehind). -/
def replaceWordCIGo (name repl : Str) : Nat → Bool → Str → Str
  | 0, _, _ => []
  | f+1, prevW, s =>
    match s with
    | [] => []
    | c :: cs =>
      if ¬prevW ∧ name ≠ [] ∧ startsWithCI s name ∧ ¬headIsWordExt (s.drop name.length) then
        repl ++ replaceWordCIGo name repl f true (s.drop name.length)
      else c :: replaceWordCIGo name repl f (isWordExt c) cs

def replaceWordCI (name repl s : Str) : Str :=
  replaceWordCIGo name repl (s.length + 1) false s

/-- Variable substitution pass of `evaluateSimpleExpression`: each stored
variable key is replaced by `String(value)`, in map insertion order. -/
def subsVarsExpr (vars : VarList) (s : Str) : Str :=
  vars.foldl (fun acc p => replaceWordCI p.1 (valueToStr p.2.value) acc) s

/-- Variable substitution pass of `evaluateCondition`: values are
spliced as `JSON.stringify(value)`. -/
def subsVarsCond (vars : VarList) (s : Str) : Str :=
  vars.foldl (fun acc p => replaceWordCI p.1 (jsonStringify p.2.value) acc) s

/-- Content up to the first `')'`, and the rest after it. -/
def findClose : Str → Option (Str × Str)
  | [] => none
  | c :: cs =>
    if c = ')' then some ([], cs)
    else (findClose cs).map (fun p => (c :: p.1, p.2))

/-- Embeds one builtin-function rewrite
`/fname\s*\(\s*(.+?)\s*\)/gi → 'jsname($1)'`: the lazy group reaches to
the first `')'`, with the surrounding whitespace stripped by the greedy
`\s*`s. -/
def replaceFuncCallGo (fname jsname : Str) : Nat → Str → Str
  | 0, _ => []
  | _+1, [] => []
  | f+1, c :: cs =>
    let s := c :: cs
    if fname ≠ [] ∧ startsWithCI s fname then
      match trimL (s.drop fname.length) with
      | '(' :: r =>
        (match findClose (trimL r) with
         | some (content, rest) =>
           let inner := trimStr content
           if inner = [] then c :: replaceFuncCallGo fname jsname f cs
           else jsname ++ '(' :: inner ++ ')' :: replaceFuncCallGo fname jsname f rest
         | none => c :: replaceFuncCallGo fname jsname f cs)
      | _ => c :: replaceFuncCallGo fname jsname f cs
    else c :: replaceFuncCallGo fname jsname f cs

def replaceFuncCall (fname jsname s : Str) : Str :=
  replaceFuncCallGo fname jsname (s.length + 1) s

/-- Global case-insensitive substring replacement (no word boundaries),
as in `.replace(/mod/gi, '%')`. -/
def replaceSubCI (sub repl : Str) : Nat → Str → Str
  | 0, _ => []
  | _+1, [] => []
  | f+1, c :: cs =>
    let s := c :: cs
    if sub ≠ [] ∧ startsWithCI s sub then
      repl ++ replaceSubCI sub repl f (s.drop sub.length)
    else c :: replaceSubCI sub repl f cs

def replaceAllCI (sub repl s : Str) : Str := replaceSubCI sub repl (s.length + 1) s

/-- Global case-insensitive whole-word replacement with ASCII `\b`
boundaries, as in `.replace(/\bVERDADERO\b/gi, 'true')`. -/
def replaceWordBGo (word repl : Str) : Nat → Bool → Str → Str
  | 0, _, _ => []
  | f+1, prevW, s =>
    match s with
    | [] => []
    | c :: cs =>
      if ¬prevW ∧ word ≠ [] ∧ startsWithCI s word ∧ ¬headIsAsciiWord (s.drop word.length) then
        repl ++ replaceWordBGo word repl f true (s.drop word.length)
      else c :: replaceWordBGo word repl f (isAsciiWord c) cs

def replaceWordB (word repl s : Str) : Str :=
  replaceWordBGo word repl (s.length + 1) false s

/-- `/(?<![<>!])=(?!=)/g → '==='`: a lone `=` not preceded by `<`, `>`
or `!` and not followed by `=`. -/
def replaceLoneEqGo : Nat → Bool → Str → Str
  | 0, _, _ => []
  | f+1, prevOp, s =>
    match s with
    | [] => []
    | c :: cs =>
      if c = '=' ∧ ¬prevOp ∧ ¬startsWithStr cs ['='] then
        '=' :: '=' :: '=' :: replaceLoneEqGo f false cs
      else c :: replaceLoneEqGo f (c = '<' ∨ c = '>' ∨ c = '!') cs

def replaceLoneEq (s : Str) : Str := replaceLoneEqGo (s.length + 1) false s

/-- The rewrite chain of `evaluateSimpleExpression` (lines 590-613 of the
source): variable substitution, the nine math-builtin rewrites, `^ → **`,
`mod → %`, and the boolean literals. -/
def rewriteExpr (vars : VarList) (e : Str) : Str :=
  let s0 := subsVarsExpr vars e
  let s1 := replaceFuncCall "raiz".data "Math.sqrt".data s0
  let s2 := replaceFuncCall "abs".data "Math.abs".data s1
  let s3 := replaceFuncCall "sen".data "Math.sin".data s2
  let s4 := replaceFuncCall "cos".data "Math.cos".data s3
  let s5 := replaceFuncCall "tan".data "Math.tan".data s4
  let s6 := replaceFuncCall "ln".data "Math.log".data s5
  let s7 := replaceFuncCall "exp".data "Math.exp".data s6
  let s8 := replaceFuncCall "trunc".data "Math.trunc".data s7
  let s9 := replaceFuncCall "redon".data "Math.round".data s8
  let s10 := replaceAllCI "^".data "**".data s9
  let s11 := replaceAllCI "mod".data "%".data s10
  let s12 := replaceWordB "verdadero".data "true".data s11
  replaceWordB "falso".data "false".data s12

/-- `evaluateSimpleExpression`: rewrite, evaluate; on any thrown error
return the rewritten text itself as a string. -/
def evaluateSimpleExpression (vars : VarList) (e : Str) : Value :=
  let processed := rewriteExpr vars e
  match jsEval processed with
  | some v => v
  | none => .str processed

/-- The rewrite chain of `evaluateCondition` (lines 624-644): variable
substitution with JSON forms, `Y/O/NO`, `<>`, the lone `=`, and the
boolean literals (these last two without word boundaries, as in the
source). -/
def rewriteCond (vars : VarList) (c : Str) : Str :=
  let s0 := subsVarsCond vars c
  let s1 := replaceWordB "y".data "&&".data s0
  let s2 := replaceWordB "o".data "||".data s1
  let s3 := replaceWordB "no".data "!".data s2
  let s4 := replaceAllCI "<>".data "!==".data s3
  let s5 := replaceLoneEq s4
  let s6 := replaceAllCI "verdadero".data "true".data s5
  replaceAllCI "falso".data "false".data s6

/-- `evaluateCondition`: rewrite, evaluate, coerce with `Boolean`; any
thrown error yields `false`. -/
def evaluateCondition (vars : VarList) (c : Str) : Bool :=
  match jsEval (rewriteCond vars c) with
  | some v => truthy v
  | none => false

/-- A node of the execution-trace flowchart.  `stop` embeds the source's
kind named after the program end (the counterpart of `start`). -/
inductive NodeType where
  | start | stop | process | decision | input | output
deriving DecidableEq

structure FlowchartNode where
  id : Str
  type : NodeType
  text : Str
  children : List Str
deriving DecidableEq

/-- The mutable state of one `execute` run: the variable store, the three
result sequences, the node counter, the scripted input queue (the model
of the input callback; an empty queue yields the empty string, exactly
like an absent provider), and the fatal-error flag. -/
structure St where
  vars : VarList
  output : List Str
  errors : List Str
  flowchart : List FlowchartNode
  nodeCounter : Nat
  inputs : List Str
  hasError : Bool

def initSt (inputs : List Str) : St :=
  { vars := [], output := [], errors := [], flowchart := [],
    nodeCounter := 0, inputs := inputs, hasError := false }

/-- `addFlowchartNode(type, text)`. -/
def addNode (st : St) (ty : NodeType) (text : Str) : St :=
  { st with
    flowchart := st.flowchart ++
      [{ id := "node_".data ++ natToStr st.nodeCounter, type := ty,
         text := text, children := [] }],
    nodeCounter := st.nodeCounter + 1 }

/-- `splitByComma` (lines 556-588): split on commas outside quoted
literals; empty or all-whitespace fields are dropped and the kept fields
are trimmed. -/
def splitByCommaGo : Str → Option Char → Bool → Char → Str → List Str
  | [], _, _, _, current => if trimStr current ≠ [] then [trimStr current] else []
  | c :: cs, prev, inStr, sc, current =>
    if (c = '"' ∨ c = '\'') ∧ prev ≠ some '\\' then
      (if ¬inStr then splitByCommaGo cs (some c) true c (current ++ [c])
       else if c = sc then splitByCommaGo cs (some c) false sc (current ++ [c])
       else splitByCommaGo cs (some c) true sc (current ++ [c]))
    else if c = ',' ∧ ¬inStr then
      (if trimStr current ≠ [] then [trimStr current] else []) ++
        splitByCommaGo cs (some c) inStr sc []
    else splitByCommaGo cs (some c) inStr sc (current ++ [c])

def splitByComma (e : Str) : List Str := splitByCommaGo e none false ' ' []

def endsWithStr (s p : Str) : Bool := startsWithStr s.reverse p.reverse

/-- `trimmed.slice(1, -1)`. -/
def sliceEnds (t : Str) : Str := (t.drop 1).dropLast

/-- The quoted-literal test of the concatenation path. -/
def isQuotedLit (t : Str) : Bool :=
  (startsWithStr t ['"'] && endsWithStr t ['"']) ||
  (startsWithStr t ['\''] && endsWithStr t ['\''])

def isIdentFirst (c : Char) : Bool :=
  ('a' ≤ c ∧ c ≤ 'z') ∨ ('A' ≤ c ∧ c ≤ 'Z') ∨ c = '_' ∨ isAccented c

/-- `/^[a-zA-Z_À-ɏ][\wÀ-ɏ]*$/.test(t) && !/^\d+$/.test(t)`. -/
def identLike (t : Str) : Bool :=
  (match t with
   | c :: cs => isIdentFirst c && cs.all isWordExt
   | [] => false) && !(t ≠ [] && t.all isDigitC)

def undefVarMsg (name : Str) : Str :=
  "Error: La variable \"".data ++ name ++ "\" no ha sido definida.".data

/-- One part of the comma-separated concatenation list of
`evaluateExpression` (lines 524-548): returns the emitted text and the
updated state (an undeclared identifier part appends exactly one error,
sets the fatal flag and emits a placeholder). -/
def evalPart (st : St) (part : Str) : Str × St :=
  let trimmed := trimStr part
  if isQuotedLit trimmed then (sliceEnds trimmed, st)
  else
    match lookupVar st.vars (toLowerStr trimmed) with
    | some v => (valueToStr v.value, st)
    | none =>
      if identLike trimmed then
        ('[' :: trimmed ++ "?]".data,
         { st with errors := st.errors ++ [undefVarMsg trimmed], hasError := true })
      else (valueToStr (evaluateSimpleExpression st.vars trimmed), st)

def joinSep (sep : Str) : List Str → Str
  | [] => []
  | [x] => x
  | x :: xs => x ++ sep ++ joinSep sep xs

/-- `evaluateExpression`: the quoted-concatenation path joins the parts
with single spaces; otherwise the text goes to
`evaluateSimpleExpression`.  The state result carries the errors the
quoted path may append. -/
def evaluateExpression (st : St) (e : Str) : Value × St :=
  if containsSub e ['"'] || containsSub e ['\''] then
    let rs := splitByComma e |>.foldl
      (fun (acc : List Str × St) part =>
        let r := evalPart acc.2 part
        (acc.1 ++ [r.1], r.2)) ([], st)
    (.str (joinSep [' '] rs.1), rs.2)
  else (evaluateSimpleExpression st.vars e, st)

/-- Unanchored regex search: try a pattern parser at every start
position, leftmost match first. -/
def searchStr {α : Type} (f : Str → Option α) : Str → Option α
  | [] => f []
  | c :: cs =>
    match f (c :: cs) with
    | some r => some r
    | none => searchStr f cs

/-- `\s+` followed by the rest: requires at least one whitespace
character and consumes the maximal run. -/
def skipWS1 (s : Str) : Option Str :=
  match s with
  | c :: cs => if isWS c then some (trimL cs) else none
  | [] => none

/-- Pattern `definir\s+([\wÀ-ɏ]+)\s+como\s+(\w+)` (flag `i`), anchored at
the current position; captures (name, type). -/
def pDefinir (s : Str) : Option (Str × Str) :=
  if startsWithCI s "definir".data then
    match skipWS1 (s.drop 7) with
    | none => none
    | some r1 =>
      match r1.span isWordExt with
      | ([], _) => none
      | (name, r2) =>
        match skipWS1 r2 with
        | none => none
        | some r3 =>
          if startsWithCI r3 "como".data then
            match skipWS1 (r3.drop 4) with
            | none => none
            | some r4 =>
              match r4.span isAsciiWord with
              | ([], _) => none
              | (ty, _) => some (name, ty)
          else none
  else none

/-- `originalLine.match(/definir\s+([\wÀ-ɏ]+)\s+como\s+(\w+)/i)`. -/
def matchDefinir (s : Str) : Option (Str × Str) := searchStr pDefinir s

/-- Pattern `dimension\s+(\w+)\[(\d+)\]` (flag `i`); captures
(name, size-digits). -/
def pDimension (s : Str) : Option (Str × Str) :=
  if startsWithCI s "dimension".data then
    match skipWS1 (s.drop 9) with
    | none => none
    | some r1 =>
      match r1.span isAsciiWord with
      | ([], _) => none
      | (name, r2) =>
        match r2 with
        | '[' :: r3 =>
          (match r3.span isDigitC with
           | ([], _) => none
           | (ds, r4) =>
             match r4 with
             | ']' :: _ => some (name, ds)
             | _ => none)
        | _ => none
  else none

def matchDimension (s : Str) : Option (Str × Str) := searchStr pDimension s

/-- Pattern `kw\s+(.+)` at the current position: the greedy capture is
everything after the whitespace run (backtracking one whitespace
character when nothing else is left). -/
def pKwRest (kw : Str) (s : Str) : Option Str :=
  if startsWithCI s kw then
    match (s.drop kw.length).span isWS with
    | ([], _) => none
    | (ws, rest) =>
      if rest ≠ [] then some rest
      else if 2 ≤ ws.length then some (ws.drop 1)
      else none
  else none

/-- `/leer\s+(.+)/i`. -/
def matchLeer (s : Str) : Option Str := searchStr (pKwRest "leer".data) s

/-- `/escribir\s+(.+)/i`. -/
def matchEscribir (s : Str) : Option Str := searchStr (pKwRest "escribir".data) s

/-- Is the current position a whitespace run followed (immediately after
the run) by the keyword? -/
def kwAfterWS (kw : Str) (s : Str) : Bool :=
  match s.span isWS with
  | ([], _) => false
  | (_ :: _, rest) => startsWithCI rest kw

/-- Greedy `(.+)\s+kw`: the capture reaches to the LAST whitespace
position followed by the keyword. -/
def pBodyBeforeKwGo (kw : Str) : Str → Str → Option Str → Option Str
  | _, [], best => best
  | consumed, c :: cs, best =>
    let best' :=
      if consumed ≠ [] ∧ kwAfterWS kw (c :: cs) then some consumed else best
    pBodyBeforeKwGo kw (consumed ++ [c]) cs best'

/-- Lazy `(.+?)\s+kw`: the capture stops at the FIRST whitespace position
followed by the keyword. -/
def pBodyBeforeKwLazyGo (kw : Str) : Str → Str → Option Str
  | _, [] => none
  | consumed, c :: cs =>
    if consumed ≠ [] ∧ kwAfterWS kw (c :: cs) then some consumed
    else pBodyBeforeKwLazyGo kw (consumed ++ [c]) cs

/-- Pattern `mientras\s+(.+)\s+hacer` (flag `i`); captures the loop
condition. -/
def pMientras (s : Str) : Option Str :=
  if startsWithCI s "mientras".data then
    match (s.drop 8).span isWS with
    | ([], _) => none
    | (_ :: _, rest) => pBodyBeforeKwGo "hacer".data [] rest none
  else none

def matchMientras (s : Str) : Option Str := searchStr pMientras s

/-- Pattern
`para\s+(\w+)\s*<-\s*(\d+)\s+hasta\s+(\d+)(?:\s+con\s+paso\s+(\d+))?`
(flag `i`); captures (variable, start, end, step) with the source's
`stepVal = '1'` default, the three numerals already through `parseInt`. -/
def pPara (s : Str) : Option (Str × Nat × Nat × Nat) :=
  if startsWithCI s "para".data then
    match skipWS1 (s.drop 4) with
    | none => none
    | some r1 =>
      match r1.span isAsciiWord with
      | ([], _) => none
      | (name, r2) =>
        match trimL r2 with
        | '<' :: '-' :: r4 =>
          (match (trimL r4).span isDigitC with
           | ([], _) => none
           | (d1, r6) =>
             match skipWS1 r6 with
             | none => none
             | some r7 =>
               if startsWithCI r7 "hasta".data then
                 match skipWS1 (r7.drop 5) with
                 | none => none
                 | some r8 =>
                   match r8.span isDigitC with
                   | ([], _) => none
                   | (d2, r9) =>
                     let step : Option Nat :=
                       match skipWS1 r9 with
                       | some r10 =>
                         if startsWithCI r10 "con".data then
                           match skipWS1 (r10.drop 3) with
                           | some r11 =>
                             if startsWithCI r11 "paso".data then
                               match skipWS1 (r11.drop 4) with
                               | some r12 =>
                                 (match r12.span isDigitC with
                                  | ([], _) => none
                                  | (d3, _) => some (digitsVal d3))
                               | none => none
                             else none
                           | none => none
                         else none
                       | none => none
                     some (name, digitsVal d1, digitsVal d2, step.getD 1)
               else none)
        | _ => none
  else none

def matchPara (s : Str) : Option (Str × Nat × Nat × Nat) := searchStr pPara s

/-- Pattern `segun\s+([\wÀ-ɏ]+)\s+hacer` (flag `i`); captures the switch
variable. -/
def pSegun (s : Str) : Option Str :=
  if startsWithCI s "segun".data then
    match skipWS1 (s.drop 5) with
    | none => none
    | some r1 =>
      match r1.span isWordExt with
      | ([], _) => none
      | (name, r2) =>
        match skipWS1 r2 with
        | none => none
        | some r3 => if startsWithCI r3 "hacer".data then some name else none
  else none

def matchSegun (s : Str) : Option Str := searchStr pSegun s

/-- Pattern `si\s+(.+?)\s+entonces` (flag `i`); captures the condition. -/
def pSi (s : Str) : Option Str :=
  if startsWithCI s "si".data then
    match (s.drop 2).span isWS with
    | ([], _) => none
    | (_ :: _, rest) => pBodyBeforeKwLazyGo "entonces".data [] rest
  else none

def matchSi (s : Str) : Option Str := searchStr pSi s

/-- Pattern `sino\s+si\s+(.+?)\s+entonces` (flag `i`). -/
def pSinoSi (s : Str) : Option Str :=
  if startsWithCI s "sino".data then
    match skipWS1 (s.drop 4) with
    | none => none
    | some r1 =>
      if startsWithCI r1 "si".data then
        match (r1.drop 2).span isWS with
        | ([], _) => none
        | (_ :: _, rest) => pBodyBeforeKwLazyGo "entonces".data [] rest
      else none
  else none

def matchSinoSi (s : Str) : Option Str := searchStr pSinoSi s

/-- `\s*(.+)` at the current position (greedy, with the one-character
whitespace backtrack). -/
def restCapture (r : Str) : Option Str :=
  match r.span isWS with
  | (ws, rest) =>
    if rest ≠ [] then some rest
    else if ws ≠ [] then some (ws.drop (ws.length - 1))
    else none

def pAssignAfterTarget (tgt r : Str) : Option (Str × Str) :=
  match trimL r with
  | '<' :: '-' :: r6 => (restCapture r6).map (fun e => (tgt, e))
  | '=' :: r6 => (restCapture r6).map (fun e => (tgt, e))
  | _ => none

/-- Pattern `([\wÀ-ɏ]+(?:\[[\wÀ-ɏ]+\])?)\s*(?:<-|=)\s*(.+)` (flag `i`);
captures (target, expression).  The optional bracket group is tried
greedily and dropped on failure, like the regex engine does. -/
def pAssign (s : Str) : Option (Str × Str) :=
  match s.span isWordExt with
  | ([], _) => none
  | (w, r1) =>
    let withBr : Option (Str × Str) :=
      match r1 with
      | '[' :: r2 =>
        (match r2.span isWordExt with
         | ([], _) => none
         | (w2, r3) =>
           match r3 with
           | ']' :: r4 => pAssignAfterTarget (w ++ '[' :: w2 ++ [']']) r4
           | _ => none)
      | _ => none
    match withBr with
    | some res => some res
    | none => pAssignAfterTarget w r1

def matchAssign (s : Str) : Option (Str × Str) := searchStr pAssign s

/-- Pattern `(\w+)\[(\w+)\]` applied to an assignment target; captures
(array name, index expression). -/
def pArrayTarget (s : Str) : Option (Str × Str) :=
  match s.span isAsciiWord with
  | ([], _) => none
  | (w, r1) =>
    match r1 with
    | '[' :: r2 =>
      (match r2.span isAsciiWord with
       | ([], _) => none
       | (w2, r3) =>
         match r3 with
         | ']' :: _ => some (w, w2)
         | _ => none)
    | _ => none

def matchArrayTarget (s : Str) : Option (Str × Str) := searchStr pArrayTarget s

/-- Characters allowed in a `segun` case label: `[\d\wÀ-ɏ\s,'"]`. -/
def isCaseChar (c : Char) : Bool := isWordExt c ∨ isWS c ∨ c = ',' ∨ c = '\'' ∨ c = '"'

/-- Pattern `^([\d\wÀ-ɏ\s,'"]+):$` (flag `i`): the whole line is a label
list terminated by a colon. -/
def matchCaseLine (s : Str) : Option Str :=
  match s.reverse with
  | ':' :: restRev =>
    let body := restRev.reverse
    if body ≠ [] ∧ body.all isCaseChar then some body else none
  | _ => none

/-- A parsed case label value: quoted literals lose their quotes, tokens
that `parseFloat` accepts become numbers, everything else stays text. -/
inductive CaseVal where
  | num : JSNum → CaseVal
  | str : Str → CaseVal
deriving DecidableEq

/-- Lines 294-305: parse the comma-separated value list of a case. -/
def parseCaseValues (capture : Str) : List CaseVal :=
  (splitOnC ',' capture).map (fun v =>
    let trimmed := trimStr v
    if isQuotedLit trimmed then .str (sliceEnds trimmed)
    else
      match parseFloatJS trimmed with
      | .nan => .str trimmed
      | n => .num n)

/-- `String(case value)`. -/
def caseValToStr : CaseVal → Str
  | .num n => numToStr n
  | .str s => s

/-- Lines 327-332: a case value matches the switch value by exact
numeric equality when both sides are numbers, otherwise by
case-insensitive string comparison (`toLowerCase()` on both sides,
which folds the accented letters too). -/
def caseValMatches (v : CaseVal) (w : Value) : Bool :=
  match v, w with
  | .num a, .num b => numEq a b
  | _, _ => toLowerStr (caseValToStr v) == toLowerStr (valueToStr w)

/-- `getDefaultValue(type)` (lines 502-515). -/
def getDefaultValue (ty : Str) : Value :=
  let t := toLowerStr ty
  if t = "entero".data ∨ t = "real".data then .num (.fin 0)
  else if t = "caracter".data ∨ t = "cadena".data then .str []
  else if t = "logico".data then .bool false
  else .nullV

/-- The `definir` branch (lines 111-120). -/
def execDefinir (L : Str) (st : St) : St :=
  match matchDefinir L with
  | some (name, ty) =>
    let nv := mapSet (toLowerStr name)
      ({ name := name, ty := toLowerStr ty, value := getDefaultValue ty }) st.vars
    let st1 := { st with vars := nv }
    addNode st1 .process ("Definir ".data ++ name ++ " como ".data ++ ty)
  | none => st

/-- `new Array(len).fill(0)`: JavaScript validates the array length and
throws `RangeError: Invalid array length` unless it is below `2^32`;
otherwise `fill(0)` yields `len` zero elements.  `parseInt` on the
`\d+` capture is exact for every length the in-range branch can see
(such lengths are far below `2^53`), and a digit literal of `2^32` or
more lands in the error branch whether or not `parseInt` rounds it. -/
def newArrayFillZero (len : Nat) : Except Str (List Value) :=
  if len < 4294967296 then .ok (List.replicate len (.num (.fin 0)))
  else .error "RangeError: Invalid array length".data

/-- The message `Error en línea ${i + 1}: ${error}` appended by the
driver's catch block (lines 60-63) when line index `i` throws a
`RangeError` for an invalid array length. -/
def rangeErrMsg (index : Nat) : Str :=
  "Error en línea ".data ++ natToStr (index + 1) ++ ": RangeError: Invalid array length".data

/-- The `dimension` branch (lines 123-132):
`new Array(parseInt(size)).fill(0)`.  A size of `2^32` or more makes
`new Array` throw a `RangeError` that escapes `executeLine` and is
caught by the driver's per-statement try/catch (lines 59-64), which
appends `Error en línea ${i + 1}: ${error}` and sets the fatal flag; no
binding and no trace node are created.  The embedding performs that
catch at the throw site: for a top-level statement this is observably
identical to the source (the line number matches and the fatal flag
ends the run); for a statement nested inside a block the fatal flag
makes every enclosing loop unwind with no further effect, mirroring the
stack unwinding, except that the reported line number is the
statement's own rather than the enclosing top-level statement's. -/
def execDimension (L : Str) (index : Nat) (st : St) : St :=
  match matchDimension L with
  | some (name, size) =>
    match newArrayFillZero (digitsVal size) with
    | .ok elems =>
      let nv := mapSet (toLowerStr name)
        ({ name := name, ty := "arreglo".data, value := .arr elems }) st.vars
      let st1 := { st with vars := nv }
      addNode st1 .process ("Dimension ".data ++ name ++ '[' :: size ++ [']'])
    | .error e =>
      let msg := "Error en línea ".data ++ natToStr (index + 1) ++ ": ".data ++ e
      { st with errors := st.errors ++ [msg], hasError := true }
  | none => st

/-- `/^\s*verdadero\s*$/i.test(value)`. -/
def isVerdaderoStr (v : Str) : Bool := toLowerStr (trimStr v) == "verdadero".data

/-- Input coercion of the `leer` branch (lines 150-156):
`parseFloat(value) || 0` for the numeric types (NaN and 0 are falsy),
the `verdadero` test for booleans, the raw string otherwise. -/
def coerceInput (ty : Str) (value : Str) : Value :=
  if ty = "entero".data ∨ ty = "real".data then
    match parseFloatJS value with
    | .nan => .num (.fin 0)
    | n => if numEq n (.fin 0) then .num (.fin 0) else .num n
  else if ty = "logico".data then .bool (isVerdaderoStr value)
  else .str value

def leerUndefMsg (name : Str) : Str :=
  "Error: La variable \"".data ++ name ++
    "\" no ha sido definida. Use \"Definir ".data ++ name ++
    " Como Tipo\" primero.".data

def arrUndefMsg (name : Str) : Str :=
  "Error: El arreglo \"".data ++ name ++
    "\" no ha sido definido. Use \"Dimension ".data ++ name ++
    "[tamaño]\" primero.".data

/-- `match[1].split(',').map(v => v.trim().replace(/;$/, ''))`. -/
def parseLeerNames (capture : Str) : List Str :=
  (splitOnC ',' capture).map (fun v =>
    let t := trimStr v
    match t.reverse with
    | ';' :: r => r.reverse
    | _ => t)

/-- The per-name loop of the `leer` branch (lines 139-158).  The result
flag is `false` when an undeclared name aborted the statement (the
source's early `return index + 1`).  Reading pops the scripted input
queue; an exhausted queue yields the empty string, like an absent
callback. -/
def execLeerLoop : List Str → St → St × Bool
  | [], st => (st, true)
  | varName :: rest, st =>
    match lookupVar st.vars (toLowerStr varName) with
    | none =>
      ({ st with errors := st.errors ++ [leerUndefMsg varName], hasError := true }, false)
    | some existingVar =>
      let value := st.inputs.headD []
      let st1 := { st with inputs := st.inputs.tail }
      let nv := mapSet (toLowerStr varName)
        ({ existingVar with value := coerceInput existingVar.ty value }) st1.vars
      let st2 := { st1 with vars := nv }
      execLeerLoop rest st2

/-- The `leer` branch (lines 135-162): the input node is only appended
when every name was processed. -/
def execLeer (L : Str) (st : St) : St :=
  match matchLeer L with
  | some capture =>
    (match execLeerLoop (parseLeerNames capture) st with
     | (st', true) => addNode st' .input ("Leer ".data ++ capture)
     | (st', false) => st')
  | none => st

/-- The `escribir` branch (lines 165-173). -/
def execEscribir (L : Str) (st : St) : St :=
  match matchEscribir L with
  | some capture =>
    let r := evaluateExpression st capture
    let st1 := { r.2 with output := r.2.output ++ [valueToStr r.1] }
    addNode st1 .output ("Escribir ".data ++ capture)
  | none => st

/-- `(arr.value)[Number(idx)] = value`: integral in-range indices
overwrite, larger integral indices below the array-index bound
`2^32 - 1` extend the array (holes read as `undefined`), and
fractional, negative, NaN or too-large indices become invisible named
properties, leaving the element list unchanged. -/
def arraySetJS (elems : List Value) (idx : JSNum) (v : Value) : List Value :=
  match idx with
  | .fin q =>
    if q.den = 1 ∧ 0 ≤ q.num then
      let i := q.num.toNat
      if i < elems.length then elems.set i v
      else if i < 4294967295 then elems ++ List.replicate (i - elems.length) .undef ++ [v]
      else elems
    else elems
  | _ => elems

/-- The assignment branch (lines 463-497): undeclared targets append one
error, set the fatal flag and abort before any evaluation; both
evaluations happen before the store is written; the trace node is
emitted on every completed path. -/
def execAssign (L : Str) (st : St) : St :=
  match matchAssign L with
  | none => st
  | some (varName, expression) =>
    match matchArrayTarget varName with
    | some (arrName, indexExpr) =>
      (match lookupVar st.vars (toLowerStr arrName) with
       | none =>
         { st with errors := st.errors ++ [arrUndefMsg arrName], hasError := true }
       | some arrVar =>
         let ir := evaluateExpression st indexExpr
         let vr := evaluateExpression ir.2 expression
         let st3 :=
           match arrVar.value with
           | .arr elems =>
             let nv := mapSet (toLowerStr arrName)
               ({ arrVar with value := .arr (arraySetJS elems (toNumberJS ir.1) vr.1) }) vr.2.vars
             { vr.2 with vars := nv }
           | _ => vr.2
         addNode st3 .process (varName ++ " <- ".data ++ expression))
    | none =>
      match lookupVar st.vars (toLowerStr varName) with
      | none =>
        { st with errors := st.errors ++ [leerUndefMsg varName], hasError := true }
      | some existingVar =>
        let vr := evaluateExpression st expression
        let nv := mapSet (toLowerStr varName) ({ existingVar with value := vr.1 }) vr.2.vars
        let st2 := { vr.2 with vars := nv }
        addNode st2 .process (varName ++ " <- ".data ++ expression)

/-- Depth scan for the matching terminator of a `mientras` or `para`
block (lines 183-190 / 219-226): returns one past the terminator line. -/
def scanEndKw (openKw closeKw : Str) (lines : List Str) : Nat → Nat → Nat → Nat
  | 0, idx, _ => idx
  | f+1, idx, depth =>
    if idx < lines.length ∧ 0 < depth then
      let check := toLowerStr (lines.getD idx [])
      let d1 := if startsWithStr check openKw then depth + 1 else depth
      let d2 := if startsWithStr check closeKw then d1 - 1 else d1
      scanEndKw openKw closeKw lines f (idx + 1) d2
    else idx

def headIsWS : Str → Bool
  | c :: _ => isWS c
  | [] => false

/-- `/^si\s+/.test(checkLine) && checkLine.includes('entonces')`. -/
def isSiOpen (check : Str) : Bool :=
  startsWithStr check "si".data ∧ headIsWS (check.drop 2) ∧
    containsSub check "entonces".data

/-- `/^sino\s+si\s+/.test(checkLine)`. -/
def isSinoSiLine (check : Str) : Bool :=
  startsWithStr check "sino".data &&
    (match skipWS1 (check.drop 4) with
     | some r => startsWithStr r "si".data && headIsWS (r.drop 2)
     | none => false)

/-- Block scan of the `si` branch (lines 368-382): finds the terminator
and the first `sino` / `sino si` line at depth 1. -/
def scanSi (lines : List Str) : Nat → Nat → Nat → Option Nat → Nat × Option Nat
  | 0, idx, _, sino => (idx, sino)
  | f+1, idx, depth, sino =>
    if idx < lines.length ∧ 0 < depth then
      let check := trimStr (toLowerStr (lines.getD idx []))
      let d1 := if isSiOpen check then depth + 1 else depth
      let d2 := if check = "finsi".data then d1 - 1 else d1
      let sino' :=
        if d2 = 1 ∧ sino = none ∧ (check = "sino".data ∨ isSinoSiLine check) then some idx
        else sino
      scanSi lines f (idx + 1) d2 sino'
    else (idx, sino)

/-- First scan of the `sino si` branch (lines 421-434), which breaks at
the first `sino` / `sino si` at depth 1. -/
def scanSinoSi1 (lines : List Str) : Nat → Nat → Nat → Nat × Option Nat
  | 0, idx, _ => (idx, none)
  | f+1, idx, depth =>
    if idx < lines.length ∧ 0 < depth then
      let check := trimStr (toLowerStr (lines.getD idx []))
      let d1 := if isSiOpen check then depth + 1 else depth
      let d2 := if check = "finsi".data then d1 - 1 else d1
      if d2 = 1 ∧ (check = "sino".data ∨ isSinoSiLine check) then (idx, some idx)
      else scanSinoSi1 lines f (idx + 1) d2
    else (idx, none)

/-- Second scan of the `sino si` branch (lines 437-444), looking for the
actual terminator; note the source tests `startsWith('si ')` with a
literal space here. -/
def scanFinsi (lines : List Str) : Nat → Nat → Nat → Nat
  | 0, idx, _ => idx
  | f+1, idx, depth =>
    if idx < lines.length ∧ 0 < depth then
      let check := trimStr (toLowerStr (lines.getD idx []))
      let d1 :=
        if startsWithStr check "si ".data ∧ containsSub check "entonces".data then depth + 1
        else depth
      let d2 := if check = "finsi".data then d1 - 1 else d1
      scanFinsi lines f (idx + 1) d2
    else idx

/-- One case group of a `segun` statement. -/
structure SegunCase where
  values : List CaseVal
  startLine : Nat
  endLine : Nat
deriving DecidableEq

/-- The `segun` block scan (lines 259-322): finds the terminator,
partitions the body into case groups and locates the default group.
The default is represented as `(startLine, endLine?)`; a `none` end
embeds the source's `-1` sentinel (the default was not the last group,
so it never resolved). -/
def scanSegun (lines : List Str) : Nat → Nat → Nat → List SegunCase →
    Option (Nat × Option Nat) → Option Nat → List CaseVal →
    Nat × List SegunCase × Option (Nat × Option Nat)
  | 0, idx, _, cases, defaultC, _, _ => (idx, cases, defaultC)
  | f+1, idx, depth, cases, defaultC, curStart, curVals =>
    if idx < lines.length ∧ 0 < depth then
      let check := trimStr (toLowerStr (lines.getD idx []))
      let checkOriginal := trimStr (lines.getD idx [])
      let d1 := if startsWithStr check "segun".data then depth + 1 else depth
      let fin := startsWithStr check "finsegun".data
      let d2 := if fin then d1 - 1 else d1
      let pushCur := fun (cs : List SegunCase) =>
        match curStart with
        | some s =>
          if curVals ≠ [] then cs ++ [{ values := curVals, startLine := s, endLine := idx }]
          else cs
        | none => cs
      let casesA := if fin ∧ d2 = 0 then pushCur cases else cases
      let defaultMatchesCur : Bool :=
        match defaultC, curStart with
        | some (ds, _), some s => ds == s
        | _, _ => false
      let defaultA :=
        if fin ∧ d2 = 0 ∧ curVals = [] ∧ defaultMatchesCur then
          (match defaultC with
           | some (ds, _) => some (ds, some idx)
           | none => defaultC)
        else defaultC
      if d2 = 1 then
        match matchCaseLine checkOriginal with
        | some capture =>
          if ¬startsWithStr check "de otro modo".data then
            scanSegun lines f (idx + 1) d2 (pushCur casesA) defaultA
              (some (idx + 1)) (parseCaseValues capture)
          else
            scanSegun lines f (idx + 1) d2 (pushCur casesA)
              (some (idx + 1, none)) (some (idx + 1)) []
        | none =>
          if startsWithStr check "de otro modo".data then
            scanSegun lines f (idx + 1) d2 (pushCur casesA)
              (some (idx + 1, none)) (some (idx + 1)) []
          else scanSegun lines f (idx + 1) d2 casesA defaultA curStart curVals
      else scanSegun lines f (idx + 1) d2 casesA defaultA curStart curVals
    else (idx, cases, defaultC)

/-- The iteration-capped `mientras` loop body runner (lines 193-201):
the source counts `iterations` up to `maxIterations = 100`; this
embedding counts the remaining allowance down (`rem = 100 - iterations`),
which makes the recursion structural.  `none` propagates fuel exhaustion
of the body. -/
def runMientrasGo (cond : St → Bool) (body : St → Option St) : Nat → St → Option St
  | 0, st => some st
  | rem+1, st =>
    if cond st ∧ ¬st.hasError then
      match body st with
      | none => none
      | some st' => runMientrasGo cond body rem st'
    else some st

/-- The `mientras` loop runner started at iteration count `its`. -/
def runMientras (cond : St → Bool) (body : St → Option St) (its : Nat) (st : St) : Option St :=
  runMientrasGo cond body (100 - its) st

/-- The control-variable re-declaration performed at the top of every
`para` pass (line 230). -/
def setParaVar (varName : Str) (v : Nat) (s : St) : St :=
  { s with vars := mapSet (toLowerStr varName) ({ name := varName, ty := "entero".data, value := .num (.fin (fOfNat v)) }) s.vars }

/-- The case selection of the `segun` branch (lines 325-352): walk the
scanned case groups in order; the first matching case's body runs (via
the abstract body runner `runB`, instantiated with `runLines` over the
group's line range); otherwise the default body runs when the scan
resolved one; otherwise nothing runs. -/
def runSegunCases (runB : Nat → Nat → St → Option St) :
    List SegunCase → Option (Nat × Option Nat) → Value → St → Option St
  | [], defaultC, _, st =>
    (match defaultC with
     | some (ds, some de) => runB ds de (addNode st .process "De Otro Modo".data)
     | _ => some st)
  | c :: rest, defaultC, v, st =>
    if c.values.any (fun cv => caseValMatches cv v) then
      runB c.startLine c.endLine
        (addNode st .process ("Caso ".data ++ joinSep ", ".data (c.values.map caseValToStr)))
    else runSegunCases runB rest defaultC v st

/-- The `para` loop runner (lines 229-236):
`for (let v = start; v <= end && !hasError; v += step)`; each pass first
re-declares the control variable (`setV`), then runs the body.  The fuel
guards against `paso 0`, which loops forever in the source. -/
def runPara (body : St → Option St) (setV : Nat → St → St) (b s : Nat) :
    Nat → Nat → St → Option St
  | 0, v, st => if v ≤ b ∧ ¬st.hasError then none else some st
  | f+1, v, st =>
    if v ≤ b ∧ ¬st.hasError then
      match body (setV v st) with
      | none => none
      | some st' => runPara body setV b s f (v + s) st'
    else some st

mutual

/-- `executeLine` (lines 97-500): recognize the statement kind of the
line at `index`, execute it, and return the next line index.  Branch
guards that fail to parse fall through exactly as in the source. -/
def executeLine : Nat → List Str → Nat → St → Option (St × Nat)
  | 0, _, _, _ => none
  | fuel+1, lines, index, st =>
    let originalLine := lines.getD index []
    let line := toLowerStr originalLine
    if startsWithStr line "algoritmo".data ∨ startsWithStr line "proceso".data then
      some (st, index + 1)
    else if startsWithStr line "finalgoritmo".data ∨ startsWithStr line "finproceso".data then
      some (st, index + 1)
    else if startsWithStr line "definir".data then
      some (execDefinir originalLine st, index + 1)
    else if startsWithStr line "dimension".data then
      some (execDimension originalLine index st, index + 1)
    else if startsWithStr line "leer".data then
      some (execLeer originalLine st, index + 1)
    else if startsWithStr line "escribir".data then
      some (execEscribir originalLine st, index + 1)
    else
      match (if startsWithStr line "mientras".data then matchMientras originalLine else none) with
      | some condition =>
        let st1 := addNode st .decision ("Mientras ".data ++ condition)
        let endIndex := scanEndKw "mientras".data "finmientras".data lines (lines.length + 1) (index + 1) 1
        (match runMientras (fun s => evaluateCondition s.vars condition)
            (fun s => runLines fuel lines (index + 1) (endIndex - 1) s) 0 st1 with
         | none => none
         | some st2 => some (st2, endIndex))
      | none =>
        match (if startsWithStr line "para".data then matchPara originalLine else none) with
        | some (varName, start, endV, step) =>
          let st1 := addNode st .decision
            ("Para ".data ++ varName ++ " <- ".data ++ natToStr start ++ " Hasta ".data ++ natToStr endV)
          let endIndex := scanEndKw "para".data "finpara".data lines (lines.length + 1) (index + 1) 1
          (match runPara (fun s => runLines fuel lines (index + 1) (endIndex - 1) s)
              (setParaVar varName) endV step fuel start st1 with
           | none => none
           | some st2 => some (st2, endIndex))
        | none =>
          match (if startsWithStr line "segun".data then matchSegun originalLine else none) with
          | some varName =>
            (match lookupVar st.vars (toLowerStr varName) with
             | none =>
               some ({ st with errors := st.errors ++ [undefVarMsg varName], hasError := true },
                 index + 1)
             | some varRec =>
               let st1 := addNode st .decision ("Segun ".data ++ varName)
               let scan := scanSegun lines (lines.length + 1) (index + 1) 1 [] none none []
               match runSegunCases (fun lo hi s => runLines fuel lines lo hi s)
                   scan.2.1 scan.2.2 varRec.value st1 with
               | none => none
               | some st2 => some (st2, scan.1))
          | none =>
            match (if startsWithStr line "si".data ∧ ¬startsWithStr line "sino".data
                   then matchSi originalLine else none) with
            | some condRaw =>
              let condition := trimStr condRaw
              let conditionResult := evaluateCondition st.vars condition
              let st1 := addNode st .decision ("Si ".data ++ condition)
              let scan := scanSi lines (lines.length + 1) (index + 1) 1 none
              let endIndex := scan.1
              if conditionResult then
                let execEnd := match scan.2 with
                  | some k => if 0 < k then k else endIndex - 1
                  | none => endIndex - 1
                (match runLines fuel lines (index + 1) execEnd st1 with
                 | none => none
                 | some st2 => some (st2, endIndex))
              else
                (match scan.2 with
                 | some k =>
                   if 0 < k then
                     let sinoLine := trimStr (toLowerStr (lines.getD k []))
                     if isSinoSiLine sinoLine then
                       match runLines fuel lines k (endIndex - 1) st1 with
                       | none => none
                       | some st2 => some (st2, endIndex)
                     else
                       match runLines fuel lines (k + 1) (endIndex - 1) st1 with
                       | none => none
                       | some st2 => some (st2, endIndex)
                   else some (st1, endIndex)
                 | none => some (st1, endIndex))
            | none =>
              match (if isSinoSiLine line then matchSinoSi originalLine else none) with
              | some condRaw =>
                let condition := trimStr condRaw
                let conditionResult := evaluateCondition st.vars condition
                let st1 := addNode st .decision ("SiNo Si ".data ++ condition)
                let sinoIndex := (scanSinoSi1 lines (lines.length + 1) (index + 1) 1).2
                let finsiIndex := scanFinsi lines (lines.length + 1) (index + 1) 1
                if conditionResult then
                  let execEnd := match sinoIndex with
                    | some k => if 0 < k then k else finsiIndex - 1
                    | none => finsiIndex - 1
                  (match runLines fuel lines (index + 1) execEnd st1 with
                   | none => none
                   | some st2 => some (st2, finsiIndex))
                else
                  (match sinoIndex with
                   | some k => if 0 < k then some (st1, k) else some (st1, finsiIndex)
                   | none => some (st1, finsiIndex))
              | none =>
                if containsSub line "<-".data ∨ containsSub line "=".data then
                  some (execAssign originalLine st, index + 1)
                else some (st, index + 1)

/-- The body-range execution loop
`while (j < hi && !this.hasError) j = await this.executeLine(lines, j)`,
used by the driver and by every block construct. -/
def runLines : Nat → List Str → Nat → Nat → St → Option St
  | 0, _, j, hi, st => if j < hi ∧ ¬st.hasError then none else some st
  | fuel+1, lines, j, hi, st =>
    if j < hi ∧ ¬st.hasError then
      match executeLine fuel lines j st with
      | none => none
      | some (st', j') => runLines fuel lines j' hi st'
    else some st

end

/-- `line.replace(/;$/g, '')`. -/
def stripTrailingSemi (s : Str) : Str :=
  match s.reverse with
  | ';' :: r => r.reverse
  | _ => s

/-- `line.replace(/;\s*(Entonces|entonces)/gi, ' $1')`. -/
def replaceSemiEntonces : Nat → Str → Str
  | 0, _ => []
  | _+1, [] => []
  | f+1, c :: cs =>
    if c = ';' then
      match cs.span isWS with
      | (_, rest) =>
        if startsWithCI rest "entonces".data then
          ' ' :: rest.take 8 ++ replaceSemiEntonces f (rest.drop 8)
        else c :: replaceSemiEntonces f cs
    else c :: replaceSemiEntonces f cs

/-- The preprocessing of `execute` (lines 48-52). -/
def preprocess (code : Str) : List Str :=
  (((splitOnC '\n' code).map trimStr).map stripTrailingSemi).map
      (fun l => replaceSemiEntonces (l.length + 1) l)
    |>.filter (fun l => l ≠ [] ∧ ¬startsWithStr l "//".data)

/-- The aggregate result of one run. -/
structure ExecResult where
  output : List Str
  errors : List Str
  flowchart : List FlowchartNode
deriving DecidableEq

/-- The final sequential stitching (lines 71-73): every node receives an
edge to its successor in creation order. -/
def connectSeq : List FlowchartNode → List FlowchartNode
  | [] => []
  | [n] => [n]
  | n :: m :: rest => { n with children := n.children ++ [m.id] } :: connectSeq (m :: rest)

/-- `execute(code)` (lines 44-80) with a scripted input queue: preprocess,
emit the start node, dispatch lines until end-of-program or the fatal
flag, emit the end node, stitch the sequential edges.  (The source's
try/catch around the loop is dead in the embedded fragment: no embedded
operation throws.) -/
def execute (code : Str) (inputs : List Str) (fuel : Nat) : Option ExecResult :=
  let lines := preprocess code
  let st0 := addNode (initSt inputs) .start "Inicio".data
  match runLines fuel lines 0 lines.length st0 with
  | none => none
  | some st1 =>
    let st2 := addNode st1 .stop "Fin".data
    some { output := st2.output, errors := st2.errors,
           flowchart := connectSeq st2.flowchart }

/-- The sample program `defaultCode` (lines 658-668). -/
def defaultCode : Str :=
  ("Algoritmo condicionales\n    Definir edad Como Entero;\n    Escribir \"Digite su edad\";\n    Leer edad;\n\n    Si edad > 18 Entonces\n        Escribir \"Usted es mayor de edad\";\n    SiNo\n        Escribir \"Usted es menor de edad\";\n    FinSi\nFinAlgoritmo").data

/-- `k`-fold execution of a loop body, the measuring stick for the
while-loop iteration cap. -/
def iterOpt (body : St → Option St) : Nat → St → Option St
  | 0, st => some st
  | k+1, st =>
    match body st with
    | none => none
    | some st' => iterOpt body k st'

/-- The control-variable value sequence of a `para` loop with positive
step: `a, a+s, …` up to `b`, of length `(b-a)/s + 1` when `a ≤ b`. -/
def paraVals (a b s : Nat) : List Nat :=
  if 1 ≤ s ∧ a ≤ b then (List.range ((b - a) / s + 1)).map (fun i => a + s * i) else []

/-- Execution of one body pass per listed control value (set, then run),
the measuring stick for the for-loop pass count. -/
def iterVals (body : St → Option St) (setV : Nat → St → St) : List Nat → St → Option St
  | [], st => some st
  | v :: vs, st =>
    match body (setV v st) with
    | none => none
    | some st' => iterVals body setV vs st'

/-- Every node's children are exactly the singleton next node (and the
last node has none): the sequential linking the driver stitches. -/
def linkedSeq : List FlowchartNode → Bool
  | [] => true
  | [n] => n.children == []
  | n :: m :: rest => n.children == [m.id] && linkedSeq (m :: rest)

/-- A loop body that fails on its first pass: it appends one error and
sets the fatal flag (the observable behaviour of a body whose statement
references an undeclared variable). -/
def erroringBody : St → Option St :=
  fun st => some { st with errors := st.errors ++ ["boom".data], hasError := true }

/-- A state whose fatal flag is already set, with one accumulated error. -/
def flaggedSt : St :=
  { initSt [] with errors := ["previous".data], hasError := true }

/-- A two-line program whose first line fails: reading an undeclared
variable. -/
def haltCexCode : Str := "Leer x\nEscribir 1".data

/-- The state in which the main loop of `execute haltCexCode` stops. -/
def haltCexSt : St :=
  (runLines 10 (preprocess haltCexCode) 0 (preprocess haltCexCode).length
    (addNode (initSt []) .start "Inicio".data)).getD (initSt [])

/-- A `segun` statement whose default group is written before a case
group: the scan leaves its end unresolved. -/
def segunCexCode : Str :=
  "Definir x Como Entero\nSegun x Hacer\nDe Otro Modo:\nEscribir \"d\"\n1:\nEscribir \"one\"\nFinSegun".data

/-- A body runner that only records which line range ran. -/
def recordingRunB : Nat → Nat → St → Option St :=
  fun lo hi s => some { s with output := s.output ++ [natToStr lo ++ '-' :: natToStr hi] }

/-- The aggregate `execute` assembles when its main loop stops in state
`st1`: the end node appended, the sequential edges stitched. -/
def endResult (st1 : St) : ExecResult :=
  { output := st1.output, errors := st1.errors,
    flowchart := connectSeq (st1.flowchart ++
      [{ id := "node_".data ++ natToStr st1.nodeCounter, type := .stop,
         text := "Fin".data, children := [] }]) }

/- ------------------------------------------------------------------ -/
/- Helper lemmas                                                      -/
/- ------------------------------------------------------------------ -/

theorem lookupVar_mapSet_self (k : Str) (v : Variable) :
    ∀ vars, lookupVar (mapSet k v vars) k = some v := by
  intro vars
  induction vars with
  | nil => simp [mapSet, lookupVar, List.find?]
  | cons p rest ih =>
    by_cases h : p.1 == k
    · simp [mapSet, h, lookupVar, List.find?]
    · simp only [mapSet, h]
      simp only [lookupVar, List.find?, h] at ih ⊢
      exact ih

theorem runLines_hasError (fuel : Nat) (lines : List Str) (j hi : Nat) (st : St)
    (h : st.hasError = true) : runLines fuel lines j hi st = some st := by
  cases fuel with
  | zero => simp [runLines, h]
  | succ f => simp [runLines, h]

theorem runMientrasGo_iter (cond : St → Bool) (body : St → Option St) :
    ∀ rem st, ∃ k, k ≤ rem ∧ runMientrasGo cond body rem st = iterOpt body k st := by
  intro rem
  induction rem with
  | zero => exact fun st => ⟨0, Nat.le_refl 0, rfl⟩
  | succ n ih =>
    intro st
    by_cases h : (cond st = true ∧ ¬st.hasError = true)
    · rw [runMientrasGo, if_pos h]
      cases hb : body st with
      | none => exact ⟨1, by omega, by simp [iterOpt, hb]⟩
      | some st' =>
        obtain ⟨k, hk, he⟩ := ih st'
        exact ⟨k + 1, by omega, by simp [iterOpt, hb, he]⟩
    · rw [runMientrasGo, if_neg h]
      exact ⟨0, Nat.zero_le _, rfl⟩

theorem connectSeq_types :
    ∀ ns : List FlowchartNode, (connectSeq ns).map (·.type) = ns.map (·.type) := by
  intro ns
  induction ns with
  | nil => rfl
  | cons n rest ih =>
    cases rest with
    | nil => rfl
    | cons m rest' =>
      simp only [connectSeq, List.map_cons] at ih ⊢
      exact congrArg _ ih

theorem startsWith_cons {s : Str} {c : Char} {p : Str}
    (h : startsWithStr s (c :: p) = true) : ∃ s', s = c :: s' ∧ startsWithStr s' p = true := by
  cases s with
  | nil => simp [startsWithStr] at h
  | cons a as =>
    simp only [startsWithStr, Bool.and_eq_true, beq_iff_eq] at h
    exact ⟨as, by rw [h.1], h.2⟩

/- ------------------------------------------------------------------ -/
/- C3                                                                 -/
/- ------------------------------------------------------------------ -/

/-- C3: for every while-loop condition and body and every program state,
the `mientras` runner performs at most 100 body passes, and its result
is exactly the state produced by those passes — on reaching the cap the
loop exits silently, appending nothing (in particular no error),
regardless of whether the condition still holds. -/
theorem while_loop_iteration_cap (cond : St → Bool) (body : St → Option St) (st : St) :
    ∃ k, k ≤ 100 ∧ runMientras cond body 0 st = iterOpt body k st :=
  runMientrasGo_iter cond body 100 st

/- ------------------------------------------------------------------ -/
/- C5                                                                 -/
/- ------------------------------------------------------------------ -/

/-- C5: the two evaluators fail asymmetrically: whenever the rewritten
expression text fails to evaluate, `evaluateSimpleExpression` returns
the rewritten text itself as a string value (it never raises), while
whenever the rewritten condition text fails to evaluate,
`evaluateCondition` returns `false`. -/
theorem evaluator_fallback_asymmetry :
    (∀ vars e, jsEval (rewriteExpr vars e) = none →
      evaluateSimpleExpression vars e = .str (rewriteExpr vars e)) ∧
    (∀ vars c, jsEval (rewriteCond vars c) = none →
      evaluateCondition vars c = false) := by
  constructor
  · intro vars e h
    have hu : evaluateSimpleExpression vars e =
        match jsEval (rewriteExpr vars e) with
        | some v => v
        | none => .str (rewriteExpr vars e) := rfl
    rw [hu, h]
  · intro vars c h
    have hu : evaluateCondition vars c =
        match jsEval (rewriteCond vars c) with
        | some v => truthy v
        | none => false := rfl
    rw [hu, h]

/-- Witness for C5 at the unparsable text `((` with an empty store. -/
theorem evaluator_fallback_asymmetry_witness :
    jsEval (rewriteExpr [] "((".data) = none ∧
    evaluateSimpleExpression [] "((".data = .str (rewriteExpr [] "((".data) ∧
    jsEval (rewriteCond [] "((".data) = none ∧
    evaluateCondition [] "((".data = false :=
  ⟨rfl, evaluator_fallback_asymmetry.1 [] "((".data rfl, rfl,
    evaluator_fallback_asymmetry.2 [] "((".data rfl⟩

/- ------------------------------------------------------------------ -/
/- C2                                                                 -/
/- ------------------------------------------------------------------ -/

/-- C2: running the sample program with scripted input `"20"` outputs
the prompt and `Usted es mayor de edad`; with `"10"` it outputs the
prompt and `Usted es menor de edad`; both runs report no error, and both
traces have node kinds exactly start, process, output, input, decision,
output, end, each node linked sequentially to the next. -/
theorem default_program_end_to_end :
    ((execute defaultCode ["20".data] 60).map fun r =>
        (r.output, r.errors, r.flowchart.map (·.type), linkedSeq r.flowchart)) =
      some (["Digite su edad".data, "Usted es mayor de edad".data], [],
        [.start, .process, .output, .input, .decision, .output, .stop], true) ∧
    ((execute defaultCode ["10".data] 60).map fun r =>
        (r.output, r.errors, r.flowchart.map (·.type), linkedSeq r.flowchart)) =
      some (["Digite su edad".data, "Usted es menor de edad".data], [],
        [.start, .process, .output, .input, .decision, .output, .stop], true) :=
  ⟨by decide, by decide⟩

theorem lookupVar_mapSet (k : Str) (v : Variable) (k' : Str) :
    ∀ vars, lookupVar (mapSet k v vars) k' = if k' = k then some v else lookupVar vars k' := by
  intro vars
  induction vars with
  | nil =>
    simp only [mapSet, lookupVar, List.find?]
    by_cases h : k' = k
    · subst h
      simp
    · have h1 : (k == k') = false := beq_eq_false_iff_ne.mpr (Ne.symm h)
      simp [h, h1]
  | cons p rest ih =>
    by_cases hp : (p.1 == k) = true
    · have hpk : p.1 = k := eq_of_beq hp
      simp only [mapSet, hp, if_true]
      by_cases h : k' = k
      · subst h
        simp [lookupVar, List.find?]
      · have h1 : (k == k') = false := beq_eq_false_iff_ne.mpr (Ne.symm h)
        have h2 : (p.1 == k') = false := by rw [hpk]; exact h1
        simp [lookupVar, List.find?, h1, h2, h]
    · have hpf : (p.1 == k) = false := by simpa using hp
      simp only [mapSet, hpf, Bool.false_eq_true, if_false]
      by_cases hq : (p.1 == k') = true
      · have hne : k' ≠ k := by
          intro he
          rw [he] at hq
          exact hp hq
        simp [lookupVar, List.find?, hq, hne]
      · have hqf : (p.1 == k') = false := by simpa using hq
        simp only [lookupVar, List.find?, hqf, Bool.false_eq_true, if_false] at ih ⊢
        exact ih

/- ------------------------------------------------------------------ -/
/- C6                                                                 -/
/- ------------------------------------------------------------------ -/

/-- C6 (amended): for every array declaration `dimension arr[n]` whose
size is a decimal digit literal (the only size form the pattern
accepts), when the literal is below `2^32` the variable store
afterwards binds the lower-cased name to an `arreglo` whose value is a
sequence of exactly `n` numeric values, every element zero; a literal
of `2^32` or more makes `new Array` throw a `RangeError` that the
driver's catch turns into exactly one appended error plus the fatal
flag, and no binding is created. -/
theorem dimension_literal_zero_fill (L : Str) (index : Nat) (st : St) (name size : Str)
    (h : matchDimension L = some (name, size)) :
    (digitsVal size < 4294967296 →
      lookupVar (execDimension L index st).vars (toLowerStr name) =
        some { name := name, ty := "arreglo".data,
               value := .arr (List.replicate (digitsVal size) (.num (.fin 0))) } ∧
      (List.replicate (digitsVal size) (Value.num (.fin 0))).length = digitsVal size) ∧
    (4294967296 ≤ digitsVal size →
      execDimension L index st =
        { st with errors := st.errors ++ [rangeErrMsg index], hasError := true } ∧
      lookupVar (execDimension L index st).vars (toLowerStr name) =
        lookupVar st.vars (toLowerStr name)) := by
  constructor
  · intro hlt
    have hok : newArrayFillZero (digitsVal size) =
        .ok (List.replicate (digitsVal size) (.num (.fin 0))) := by
      unfold newArrayFillZero
      rw [if_pos hlt]
    constructor
    · unfold execDimension
      rw [h]
      simp only [hok, addNode]
      exact lookupVar_mapSet_self _ _ _
    · simp
  · intro hge
    have herr : newArrayFillZero (digitsVal size) =
        .error "RangeError: Invalid array length".data := by
      unfold newArrayFillZero
      rw [if_neg (by omega)]
    have hst : execDimension L index st =
        { st with errors := st.errors ++ [rangeErrMsg index], hasError := true } := by
      unfold execDimension
      rw [h]
      simp only [herr, rangeErrMsg, List.append_assoc]
      rfl
    exact ⟨hst, by rw [hst]⟩

/-- Witness for C6 at `Dimension arr[3]` (in-range literal) and at
`Dimension a[4294967296]` (the `RangeError` path: one error, fatal
flag, no binding). -/
theorem dimension_literal_zero_fill_witness :
    (lookupVar (execDimension "Dimension arr[3]".data 0 (initSt [])).vars "arr".data =
       some { name := "arr".data, ty := "arreglo".data,
              value := .arr (List.replicate 3 (.num (.fin 0))) } ∧
     (List.replicate 3 (Value.num (.fin 0))).length = 3) ∧
    (execDimension "Dimension a[4294967296]".data 0 (initSt []) =
       { initSt [] with errors := [rangeErrMsg 0], hasError := true } ∧
     lookupVar (execDimension "Dimension a[4294967296]".data 0 (initSt [])).vars "a".data =
       lookupVar (initSt []).vars "a".data) :=
  ⟨(dimension_literal_zero_fill "Dimension arr[3]".data 0 (initSt [])
      "arr".data "3".data rfl).1 (by decide),
   (dimension_literal_zero_fill "Dimension a[4294967296]".data 0 (initSt [])
      "a".data "4294967296".data rfl).2 (by decide)⟩

/-- C6 counterexample: `dimension arr[2+3]` — a size given by an
expression — matches no pattern: the statement is silently skipped, no
binding for `arr` is created (the claim requires a 5-element zero
array), and no error is raised. -/
theorem dimension_expression_size_ignored :
    (executeLine 5 ["Dimension arr[2+3]".data] 0 (initSt [])).map
        (fun r => ((lookupVar r.1.vars "arr".data).isNone, r.1.errors, r.2)) =
      some (true, [], 1) := by decide

/- ------------------------------------------------------------------ -/
/- C10                                                                -/
/- ------------------------------------------------------------------ -/

/-- C10: for every declaration `definir x como t` whose type word is not
one of entero, real, caracter, cadena, logico (case-insensitively) —
`arreglo` included — the variable is registered with value `null`, not
with any of the type-specific defaults. -/
theorem definir_unknown_type_null (L : Str) (st : St) (name ty : Str)
    (h : matchDefinir L = some (name, ty))
    (h1 : toLowerStr ty ≠ "entero".data) (h2 : toLowerStr ty ≠ "real".data)
    (h3 : toLowerStr ty ≠ "caracter".data) (h4 : toLowerStr ty ≠ "cadena".data)
    (h5 : toLowerStr ty ≠ "logico".data) :
    lookupVar (execDefinir L st).vars (toLowerStr name) =
      some { name := name, ty := toLowerStr ty, value := .nullV } := by
  have hd : getDefaultValue ty = .nullV := by
    have hu : getDefaultValue ty =
        if toLowerStr ty = "entero".data ∨ toLowerStr ty = "real".data then Value.num (.fin 0)
        else if toLowerStr ty = "caracter".data ∨ toLowerStr ty = "cadena".data then .str []
        else if toLowerStr ty = "logico".data then .bool false
        else .nullV := rfl
    rw [hu, if_neg (by tauto), if_neg (by tauto), if_neg h5]
  unfold execDefinir
  rw [h]
  simp only [addNode, hd]
  exact lookupVar_mapSet_self _ _ _

/-- Witness for C10 at `Definir x Como Arreglo` (the claim's own example
of an unrecognized type word). -/
theorem definir_unknown_type_null_witness :
    lookupVar (execDefinir "Definir x Como Arreglo".data (initSt [])).vars "x".data =
      some { name := "x".data, ty := "arreglo".data, value := .nullV } :=
  definir_unknown_type_null "Definir x Como Arreglo".data (initSt []) "x".data "Arreglo".data
    rfl (by decide) (by decide) (by decide) (by decide) (by decide)

/- ------------------------------------------------------------------ -/
/- C9                                                                 -/
/- ------------------------------------------------------------------ -/

/-- C9: for a variable declared `entero` or `real`, the `leer` coercion
stores exactly 0 whenever the provided input string does not parse as a
number, and the stored value is always a non-NaN number; a one-name
`leer` statement on such a variable stores exactly the coercion of the
front of the input queue (the empty string when no provider is
attached). -/
theorem leer_numeric_input_never_nan :
    (∀ ty v, (ty = "entero".data ∨ ty = "real".data) → parseFloatJS v = .nan →
      coerceInput ty v = .num (.fin 0)) ∧
    (∀ ty v, (ty = "entero".data ∨ ty = "real".data) →
      ∃ q, coerceInput ty v = .num q ∧ q ≠ .nan) ∧
    (∀ st name varRec, lookupVar st.vars (toLowerStr name) = some varRec →
      ∃ st', execLeerLoop [name] st = (st', true) ∧
        lookupVar st'.vars (toLowerStr name) =
          some { varRec with value := coerceInput varRec.ty (st.inputs.headD []) }) := by
  refine ⟨?_, ?_, ?_⟩
  · intro ty v hty hnan
    unfold coerceInput
    rw [if_pos hty, hnan]
  · intro ty v hty
    have hc : coerceInput ty v =
        match parseFloatJS v with
        | .nan => .num (.fin 0)
        | n => if numEq n (.fin 0) then .num (.fin 0) else .num n := by
      unfold coerceInput
      rw [if_pos hty]
    rw [hc]
    cases hp : parseFloatJS v with
    | nan => exact ⟨.fin 0, rfl, by simp⟩
    | fin q =>
      dsimp only
      by_cases hz : numEq (.fin q) (.fin 0) = true
      · rw [if_pos hz]
        exact ⟨.fin 0, rfl, by simp⟩
      · rw [if_neg hz]
        exact ⟨.fin q, rfl, by simp⟩
    | pinf =>
      dsimp only
      by_cases hz : numEq .pinf (.fin 0) = true
      · rw [if_pos hz]
        exact ⟨.fin 0, rfl, by simp⟩
      · rw [if_neg hz]
        exact ⟨.pinf, rfl, by simp⟩
    | ninf =>
      dsimp only
      by_cases hz : numEq .ninf (.fin 0) = true
      · rw [if_pos hz]
        exact ⟨.fin 0, rfl, by simp⟩
      · rw [if_neg hz]
        exact ⟨.ninf, rfl, by simp⟩
  · intro st name varRec h
    simp only [execLeerLoop, h]
    exact ⟨_, rfl, by rw [lookupVar_mapSet]; simp⟩

/-- Witness for C9: `x` declared `entero`, scripted input `"abc"` (which
does not parse), stored value exactly 0. -/
theorem leer_numeric_input_never_nan_witness :
    coerceInput "entero".data "abc".data = .num (.fin 0) ∧
    (∃ q, coerceInput "entero".data "Infinity".data = .num q ∧ q ≠ .nan) ∧
    (∃ st', execLeerLoop ["x".data]
        { initSt ["abc".data] with
          vars := [("x".data, { name := "x".data, ty := "entero".data, value := Value.num (.fin 0) })] } = (st', true) ∧
      lookupVar st'.vars "x".data =
        some { name := "x".data, ty := "entero".data,
               value := coerceInput "entero".data "abc".data }) :=
  ⟨leer_numeric_input_never_nan.1 "entero".data "abc".data (Or.inl rfl) rfl,
   leer_numeric_input_never_nan.2.1 "entero".data "Infinity".data (Or.inl rfl),
   leer_numeric_input_never_nan.2.2
     { initSt ["abc".data] with
       vars := [("x".data, { name := "x".data, ty := "entero".data, value := Value.num (.fin 0) })] }
     "x".data { name := "x".data, ty := "entero".data, value := Value.num (.fin 0) } rfl⟩

/- ------------------------------------------------------------------ -/
/- C8                                                                 -/
/- ------------------------------------------------------------------ -/

/-- C8: once the fatal flag is set, the line loop (the driver and every
nested block body), the while runner and the for runner all return the
state unchanged without executing anything; and whenever the main loop
stops in state `st₁`, `execute` still appends the closing end node and
returns the accumulated output, errors and trace (the trace's kinds are
those of `st₁` plus the final end kind). -/
theorem fatal_flag_halts_run :
    (∀ fuel lines j hi (st : St), st.hasError = true → runLines fuel lines j hi st = some st) ∧
    (∀ cond body its (st : St), st.hasError = true → runMientras cond body its st = some st) ∧
    (∀ body setV b s fuel v (st : St), st.hasError = true →
      runPara body setV b s fuel v st = some st) ∧
    (∀ code inputs fuel st₁,
      runLines fuel (preprocess code) 0 (preprocess code).length
        (addNode (initSt inputs) .start "Inicio".data) = some st₁ →
      execute code inputs fuel = some (endResult st₁) ∧
      (execute code inputs fuel).map (fun r => r.flowchart.map (·.type)) =
        some (st₁.flowchart.map (·.type) ++ [NodeType.stop])) := by
  refine ⟨?_, ?_, ?_, ?_⟩
  · intro fuel lines j hi st h
    exact runLines_hasError fuel lines j hi st h
  · intro cond body its st h
    unfold runMientras
    cases hr : 100 - its with
    | zero => rfl
    | succ rem => rw [runMientrasGo, if_neg (by simp [h])]
  · intro body setV b s fuel v st h
    cases fuel with
    | zero => rw [runPara, if_neg (by simp [h])]
    | succ f => rw [runPara, if_neg (by simp [h])]
  · intro code inputs fuel st₁ h
    have he : execute code inputs fuel = some (endResult st₁) := by
      have hu : execute code inputs fuel =
          match runLines fuel (preprocess code) 0 (preprocess code).length
              (addNode (initSt inputs) .start "Inicio".data) with
          | none => none
          | some st2 =>
            some { output := (addNode st2 .stop "Fin".data).output,
                   errors := (addNode st2 .stop "Fin".data).errors,
                   flowchart := connectSeq (addNode st2 .stop "Fin".data).flowchart } := rfl
      rw [hu, h]
      rfl
    refine ⟨he, ?_⟩
    rw [he]
    dsimp only [endResult, Option.map]
    rw [connectSeq_types]
    simp

/-- Witness for C8: a flagged state passes through the three runners
unchanged, and the two-line program whose first line reads an undeclared
variable still produces a result ending in the closing node. -/
theorem fatal_flag_halts_run_witness :
    runLines 5 [] 0 3 flaggedSt = some flaggedSt ∧
    runMientras (fun _ => true) (fun s => some s) 0 flaggedSt = some flaggedSt ∧
    runPara (fun s => some s) (fun _ s => s) 5 1 7 0 flaggedSt = some flaggedSt ∧
    execute haltCexCode [] 10 = some (endResult haltCexSt) :=
  ⟨fatal_flag_halts_run.1 5 [] 0 3 flaggedSt rfl,
   fatal_flag_halts_run.2.1 (fun _ => true) (fun s => some s) 0 flaggedSt rfl,
   fatal_flag_halts_run.2.2.1 (fun s => some s) (fun _ s => s) 5 1 7 0 flaggedSt rfl,
   (fatal_flag_halts_run.2.2.2 haltCexCode [] 10 haltCexSt rfl).1⟩

/- ------------------------------------------------------------------ -/
/- C7                                                                 -/
/- ------------------------------------------------------------------ -/

/-- C7 (amended): over the scanned case partition of a `segun`
statement, (i) when one case matches (some value of its list equals the
switch value under `caseValMatches`: exact numeric equality when both
sides are numbers, case-insensitive string equality otherwise) and no
earlier case does, exactly the first matching case's body runs; (ii)
when no case matches and the scan resolved a default range, the default
body runs exactly once; (iii) when no case matches and no resolved
default exists (no default at all, or one left unresolved because a
case group follows it), no body runs and the state is unchanged. -/
theorem segun_first_match_selection :
    (∀ (runB : Nat → Nat → St → Option St) (pre : List SegunCase) c post defaultC v st,
      (∀ c' ∈ pre, c'.values.any (fun cv => caseValMatches cv v) = false) →
      c.values.any (fun cv => caseValMatches cv v) = true →
      runSegunCases runB (pre ++ c :: post) defaultC v st =
        runB c.startLine c.endLine
          (addNode st .process ("Caso ".data ++ joinSep ", ".data (c.values.map caseValToStr)))) ∧
    (∀ (runB : Nat → Nat → St → Option St) (cases : List SegunCase) ds de v st,
      (∀ c' ∈ cases, c'.values.any (fun cv => caseValMatches cv v) = false) →
      runSegunCases runB cases (some (ds, some de)) v st =
        runB ds de (addNode st .process "De Otro Modo".data)) ∧
    (∀ (runB : Nat → Nat → St → Option St) (cases : List SegunCase) defaultC v st,
      (∀ c' ∈ cases, c'.values.any (fun cv => caseValMatches cv v) = false) →
      (∀ ds de, defaultC ≠ some (ds, some de)) →
      runSegunCases runB cases defaultC v st = some st) := by
  refine ⟨?_, ?_, ?_⟩
  · intro runB pre
    induction pre with
    | nil =>
      intro c post defaultC v st _ hc
      simp only [List.nil_append, runSegunCases, hc, if_true]
    | cons p ps ih =>
      intro c post defaultC v st hpre hc
      have hp : p.values.any (fun cv => caseValMatches cv v) = false := hpre p (by simp)
      simp only [List.cons_append, runSegunCases, hp, Bool.false_eq_true, if_false]
      exact ih c post defaultC v st (fun c' h => hpre c' (by simp [h])) hc
  · intro runB cases ds de v st
    induction cases with
    | nil => intro _; rfl
    | cons p ps ih =>
      intro hpre
      have hp : p.values.any (fun cv => caseValMatches cv v) = false := hpre p (by simp)
      simp only [runSegunCases, hp, Bool.false_eq_true, if_false]
      exact ih (fun c' h => hpre c' (by simp [h]))
  · intro runB cases defaultC v st
    induction cases with
    | nil =>
      intro _ hdef
      match hd : defaultC with
      | none => rfl
      | some (ds, none) => rfl
      | some (ds, some de) => exact absurd rfl (hdef ds de)
    | cons p ps ih =>
      intro hpre hdef
      have hp : p.values.any (fun cv => caseValMatches cv v) = false := hpre p (by simp)
      simp only [runSegunCases, hp, Bool.false_eq_true, if_false]
      exact ih (fun c' h => hpre c' (by simp [h])) hdef

/-- Witness for C7: a two-case partition over the string switch value
`josé` where the second case, labelled `"JOSÉ"`, is the first match
(the fold of `toLowerCase()` equates the accented upper and lower
case); the same partition over value 9 with a resolved default; and
over value 9 with an unresolved default. -/
theorem segun_first_match_selection_witness :
    runSegunCases recordingRunB
        [⟨[.num (.fin 1)], 10, 11⟩, ⟨[.str "JOSÉ".data], 12, 13⟩] (some (20, some 21))
        (.str "josé".data) (initSt []) =
      recordingRunB 12 13 (addNode (initSt []) .process
        ("Caso ".data ++ joinSep ", ".data ([CaseVal.str "JOSÉ".data].map caseValToStr))) ∧
    runSegunCases recordingRunB
        [⟨[.num (.fin 1)], 10, 11⟩, ⟨[.num (.fin 2)], 12, 13⟩] (some (20, some 21))
        (.num (.fin 9)) (initSt []) =
      recordingRunB 20 21 (addNode (initSt []) .process "De Otro Modo".data) ∧
    runSegunCases recordingRunB
        [⟨[.num (.fin 1)], 10, 11⟩, ⟨[.num (.fin 2)], 12, 13⟩] (some (20, none))
        (.num (.fin 9)) (initSt []) = some (initSt []) :=
  ⟨segun_first_match_selection.1 recordingRunB [⟨[.num (.fin 1)], 10, 11⟩]
      ⟨[.str "JOSÉ".data], 12, 13⟩ [] (some (20, some 21)) (.str "josé".data) (initSt [])
      (by decide) (by decide),
   segun_first_match_selection.2.1 recordingRunB
      [⟨[.num (.fin 1)], 10, 11⟩, ⟨[.num (.fin 2)], 12, 13⟩] 20 21 (.num (.fin 9)) (initSt [])
      (by decide),
   segun_first_match_selection.2.2 recordingRunB
      [⟨[.num (.fin 1)], 10, 11⟩, ⟨[.num (.fin 2)], 12, 13⟩] (some (20, none))
      (.num (.fin 9)) (initSt []) (by decide) (fun ds de h => by simp at h)⟩

/-- C7 counterexample: in a `segun` whose default group is written
before a case group, no case matches (`x = 0` against case `1`) and a
default exists in the source, yet nothing is executed: the run's output
is empty where the claim requires the default body (`Escribir "d"`) to
run exactly once.  The second conjunct shows the scan recorded the
default group (start line 3) with its end unresolved (the source's `-1`
sentinel). -/
theorem segun_default_before_case_skipped :
    ((execute segunCexCode [] 60).map (fun r => (r.output, r.errors))) = some ([], []) ∧
    (scanSegun (preprocess segunCexCode) ((preprocess segunCexCode).length + 1) 2 1
        [] none none []).2.2 = some (3, none) :=
  ⟨by decide, by decide⟩

/- ------------------------------------------------------------------ -/
/- C4                                                                 -/
/- ------------------------------------------------------------------ -/

theorem paraVals_cons (a b s : Nat) (hs : 1 ≤ s) (hab : a ≤ b) :
    paraVals a b s = a :: paraVals (a + s) b s := by
  unfold paraVals
  rw [if_pos ⟨hs, hab⟩]
  by_cases h2 : a + s ≤ b
  · rw [if_pos ⟨hs, h2⟩]
    have hdiv : (b - a) / s = (b - (a + s)) / s + 1 := by
      have h3 : b - a = (b - (a + s)) + s := by omega
      rw [h3, Nat.add_div_right _ (by omega : 0 < s)]
    rw [hdiv, List.range_succ_eq_map, List.map_cons, List.map_map]
    have hh : a + s * 0 = a := by simp
    rw [hh]
    have ht : List.map ((fun i => a + s * i) ∘ Nat.succ) (List.range ((b - (a + s)) / s + 1)) =
        List.map (fun i => a + s + s * i) (List.range ((b - (a + s)) / s + 1)) := by
      apply List.map_congr_left
      intro i _
      simp only [Function.comp_apply, Nat.mul_succ]
      omega
    rw [ht]
  · rw [if_neg (fun hc => h2 hc.2)]
    have hz : (b - a) / s = 0 := Nat.div_eq_of_lt (by omega)
    rw [hz]
    simp [List.range_succ]

theorem runPara_iterVals_aux (body : St → Option St) (setV : Nat → St → St) (b s : Nat)
    (hs : 1 ≤ s)
    (hbody : ∀ v st', st'.hasError = false →
      ∃ st'', body (setV v st') = some st'' ∧ st''.hasError = false) :
    ∀ n a (st : St) fuel, b + 1 - a ≤ n → (paraVals a b s).length < fuel →
      st.hasError = false →
      runPara body setV b s fuel a st = iterVals body setV (paraVals a b s) st := by
  intro n
  induction n with
  | zero =>
    intro a st fuel h1 _ h3
    have hv : paraVals a b s = [] := by
      unfold paraVals
      rw [if_neg (by omega)]
    rw [hv]
    cases fuel with
    | zero => rw [runPara, if_neg (by omega)]; rfl
    | succ f => rw [runPara, if_neg (by omega)]; rfl
  | succ m ih =>
    intro a st fuel h1 h2 h3
    by_cases hab : a ≤ b
    · rw [paraVals_cons a b s hs hab] at h2 ⊢
      cases fuel with
      | zero => simp at h2
      | succ f =>
        rw [runPara, if_pos ⟨hab, by simp [h3]⟩]
        obtain ⟨st'', hb, hE⟩ := hbody a st h3
        have hrec := ih (a + s) st'' f (by omega) (by simpa using h2) hE
        simp only [hb, hrec, iterVals]
    · have hv : paraVals a b s = [] := by
        unfold paraVals
        rw [if_neg (by omega)]
      rw [hv]
      cases fuel with
      | zero => rw [runPara, if_neg (by omega)]; rfl
      | succ f => rw [runPara, if_neg (by omega)]; rfl

/-- C4 (amended): for a `para v <- a hasta b con paso s` loop with
nonnegative integer-literal bounds and `s > 0`, as long as the body
raises no fatal error, the loop executes exactly one body pass per value
in `paraVals a b s` — that is `floor((b-a)/s)+1` passes when `a ≤ b` and
zero passes when `a > b` — with the control variable set to
`a, a+s, …`, each value between `a` and `b`.  (The error-free-body
hypothesis is forced by the counterexample: a failing body stops the
loop early.) -/
theorem para_pass_count (body : St → Option St) (setV : Nat → St → St)
    (a b s fuel : Nat) (st : St)
    (hs : 1 ≤ s) (hfuel : (paraVals a b s).length < fuel) (hst : st.hasError = false)
    (hbody : ∀ v st', st'.hasError = false →
      ∃ st'', body (setV v st') = some st'' ∧ st''.hasError = false) :
    runPara body setV b s fuel a st = iterVals body setV (paraVals a b s) st ∧
    (a ≤ b → (paraVals a b s).length = (b - a) / s + 1) ∧
    (b < a → paraVals a b s = []) ∧
    (∀ v ∈ paraVals a b s, a ≤ v ∧ v ≤ b) := by
  refine ⟨runPara_iterVals_aux body setV b s hs hbody (b + 1 - a) a st fuel
    (Nat.le_refl _) hfuel hst, ?_, ?_, ?_⟩
  · intro hab
    unfold paraVals
    rw [if_pos ⟨hs, hab⟩]
    simp
  · intro hba
    unfold paraVals
    rw [if_neg (by omega)]
  · intro v hv
    unfold paraVals at hv
    by_cases hc : 1 ≤ s ∧ a ≤ b
    · rw [if_pos hc] at hv
      simp only [List.mem_map, List.mem_range] at hv
      obtain ⟨i, hi, rfl⟩ := hv
      refine ⟨by omega, ?_⟩
      have hi' : i ≤ (b - a) / s := by omega
      have hmul : s * i ≤ b - a := by
        calc s * i ≤ s * ((b - a) / s) := Nat.mul_le_mul_left s hi'
        _ ≤ b - a := by
          rw [Nat.mul_comm]
          exact Nat.div_mul_le_self _ _
      omega
    · rw [if_neg hc] at hv
      simp at hv

/-- Witness for C4: `para v <- 0 hasta 4 con paso 2` with a harmless
body performs exactly the passes 0, 2, 4 — `floor((4-0)/2)+1 = 3` of
them. -/
theorem para_pass_count_witness :
    runPara (fun s => some s) (fun _ s => s) 4 2 9 0 (initSt []) =
      iterVals (fun s => some s) (fun _ s => s) (paraVals 0 4 2) (initSt []) ∧
    (paraVals 0 4 2).length = (4 - 0) / 2 + 1 ∧
    paraVals 0 4 2 = [0, 2, 4] :=
  ⟨(para_pass_count (fun s => some s) (fun _ s => s) 0 4 2 9 (initSt [])
      (by decide) (by decide) rfl (fun v st' h => ⟨st', rfl, h⟩)).1,
   (para_pass_count (fun s => some s) (fun _ s => s) 0 4 2 9 (initSt [])
      (by decide) (by decide) rfl (fun v st' h => ⟨st', rfl, h⟩)).2.1 (by decide),
   by decide⟩

/-- C4 counterexample: with a body that raises a fatal error on its
first pass (the behaviour of `Leer x` with `x` undeclared), the loop
`para i <- 1 hasta 3` performs only one pass, not the
`floor((3-1)/1)+1 = 3` the claim asserts: the runner's trace shows one
error where three passes would show three, so `runPara` differs from the
three-pass execution.  The last conjunct replays this at statement
level: after `Para i <- 1 hasta 3` over body `Leer x`, the control
variable ends at 1 (first pass) with exactly one error recorded. -/
theorem para_erroring_body_fewer_passes :
    (runPara erroringBody (fun _ s => s) 3 1 10 1 (initSt [])).map St.errors =
      some ["boom".data] ∧
    (iterVals erroringBody (fun _ s => s) (paraVals 1 3 1) (initSt [])).map St.errors =
      some ["boom".data, "boom".data, "boom".data] ∧
    (runPara erroringBody (fun _ s => s) 3 1 10 1 (initSt [])).map St.errors ≠
      (iterVals erroringBody (fun _ s => s) (paraVals 1 3 1) (initSt [])).map St.errors ∧
    ((runLines 30 (preprocess "Para i <- 1 hasta 3\nLeer x\nFinPara".data) 0
        (preprocess "Para i <- 1 hasta 3\nLeer x\nFinPara".data).length
        (addNode (initSt []) .start "Inicio".data)).map
      (fun s2 => ((lookupVar s2.vars "i".data).map (fun vv => valueToStr vv.value),
        s2.errors.length))) = some (some "1".data, 1) :=
  ⟨by decide, by decide, by decide, by decide⟩

/- ------------------------------------------------------------------ -/
/- C1                                                                 -/
/- ------------------------------------------------------------------ -/

/-- C1 counterexample: the program `Escribir x` / `Escribir 1` reads the
undeclared identifier `x` inside an (unquoted) expression, yet the run
appends NO error, does not halt — the second line is still dispatched,
producing a second output and a second output node — and prints the
fallback text `x`.  This falsifies the claim that referencing an
undeclared identifier inside an expression always appends exactly one
error and stops every later line. -/
theorem undeclared_bare_expression_no_error :
    ((execute "Escribir x\nEscribir 1".data [] 20).map
      (fun r => (r.output, r.errors, r.flowchart.map (·.type)))) =
    some ([['x'], ['1']], [], [.start, .output, .output, .stop]) := by decide

theorem execLeerLoop_error (name : Str) (rest : List Str) :
    ∀ (pre : List Str) (st : St),
      (∀ n ∈ pre, (lookupVar st.vars (toLowerStr n)).isSome = true) →
      lookupVar st.vars (toLowerStr name) = none →
      ∃ st₂, execLeerLoop (pre ++ name :: rest) st = (st₂, false) ∧
        st₂.errors = st.errors ++ [leerUndefMsg name] ∧ st₂.hasError = true := by
  intro pre
  induction pre with
  | nil =>
    intro st _ hnone
    refine ⟨{ st with errors := st.errors ++ [leerUndefMsg name], hasError := true },
      ?_, rfl, rfl⟩
    simp only [List.nil_append, execLeerLoop, hnone]
  | cons p ps ih =>
    intro st hpre hnone
    have hp : (lookupVar st.vars (toLowerStr p)).isSome = true := hpre p (by simp)
    obtain ⟨varp, hvp⟩ := Option.isSome_iff_exists.mp hp
    simp only [List.cons_append, execLeerLoop, hvp]
    have hne : toLowerStr name ≠ toLowerStr p := by
      intro he
      rw [he, hvp] at hnone
      cases hnone
    obtain ⟨st₂, h1, h2, h3⟩ := ih
      { st with inputs := st.inputs.tail,
                vars := mapSet (toLowerStr p)
                  ({ varp with value := coerceInput varp.ty (st.inputs.headD []) }) st.vars }
      (by
        intro n hn
        simp only [lookupVar_mapSet]
        by_cases he : toLowerStr n = toLowerStr p
        · rw [if_pos he]
          rfl
        · rw [if_neg he]
          exact hpre n (by simp [hn]))
      (by
        simp only [lookupVar_mapSet]
        rw [if_neg hne]
        exact hnone)
    exact ⟨st₂, h1, h2, h3⟩

/-- C1 (amended): referencing an undeclared identifier as the target of
a `leer` statement, as an identifier-shaped part of a quoted
concatenation expression, as the scalar target of an assignment, or as
the array target of an indexed assignment appends exactly one error
message and sets the fatal flag; once the flag is set the line loop
dispatches no further source line.  (An undeclared identifier inside an
UNQUOTED expression is — per the counterexample — not an error: the
expression evaluator silently falls back to the unparsed text.) -/
theorem undeclared_reference_halts :
    (∀ fuel lines index (st : St) cap pre name rest,
      startsWithStr (toLowerStr (lines.getD index [])) "leer".data = true →
      startsWithStr (toLowerStr (lines.getD index [])) "algoritmo".data = false →
      startsWithStr (toLowerStr (lines.getD index [])) "proceso".data = false →
      startsWithStr (toLowerStr (lines.getD index [])) "finalgoritmo".data = false →
      startsWithStr (toLowerStr (lines.getD index [])) "finproceso".data = false →
      startsWithStr (toLowerStr (lines.getD index [])) "definir".data = false →
      startsWithStr (toLowerStr (lines.getD index [])) "dimension".data = false →
      matchLeer (lines.getD index []) = some cap →
      parseLeerNames cap = pre ++ name :: rest →
      (∀ n ∈ pre, (lookupVar st.vars (toLowerStr n)).isSome = true) →
      lookupVar st.vars (toLowerStr name) = none →
      ∃ st₂, executeLine (fuel + 1) lines index st = some (st₂, index + 1) ∧
        st₂.errors = st.errors ++ [leerUndefMsg name] ∧ st₂.hasError = true) ∧
    (∀ (st : St) part,
      isQuotedLit (trimStr part) = false →
      lookupVar st.vars (toLowerStr (trimStr part)) = none →
      identLike (trimStr part) = true →
      evalPart st part = ('[' :: trimStr part ++ "?]".data,
        { st with errors := st.errors ++ [undefVarMsg (trimStr part)],
                  hasError := true })) ∧
    (∀ (st : St) L tgt expr,
      matchAssign L = some (tgt, expr) →
      matchArrayTarget tgt = none →
      lookupVar st.vars (toLowerStr tgt) = none →
      execAssign L st =
        { st with errors := st.errors ++ [leerUndefMsg tgt], hasError := true }) ∧
    (∀ (st : St) L tgt expr an ie,
      matchAssign L = some (tgt, expr) →
      matchArrayTarget tgt = some (an, ie) →
      lookupVar st.vars (toLowerStr an) = none →
      execAssign L st =
        { st with errors := st.errors ++ [arrUndefMsg an], hasError := true }) ∧
    (∀ fuel lines j hi (st : St), st.hasError = true →
      runLines fuel lines j hi st = some st) := by
  refine ⟨?_, ?_, ?_, ?_, ?_⟩
  · intro fuel lines index st cap pre name rest hleer halg hproc hfa hfp hdef hdim hml
      hnames hpre hnone
    obtain ⟨st₂, heq, herr, hflag⟩ := execLeerLoop_error name rest pre st hpre hnone
    refine ⟨st₂, ?_, herr, hflag⟩
    simp only [List.getD_eq_getElem?_getD] at halg hproc hfa hfp hdef hdim hleer hml
    have hexec : executeLine (fuel + 1) lines index st =
        some (execLeer ((lines[index]?).getD []) st, index + 1) := by
      rw [executeLine]
      dsimp only
      rw [if_neg (by simp [halg, hproc]), if_neg (by simp [hfa, hfp]),
        if_neg (by simp [hdef]), if_neg (by simp [hdim]), if_pos (by simp [hleer])]
      simp [List.getD_eq_getElem?_getD]
    rw [hexec]
    have hlee : execLeer ((lines[index]?).getD []) st = st₂ := by
      simp only [execLeer, hml, hnames, heq]
    rw [hlee]
  · intro st part hq hlook hid
    have hu : evalPart st part =
        (if isQuotedLit (trimStr part) then (sliceEnds (trimStr part), st)
         else
           match lookupVar st.vars (toLowerStr (trimStr part)) with
           | some v => (valueToStr v.value, st)
           | none =>
             if identLike (trimStr part) then
               ('[' :: trimStr part ++ "?]".data,
                { st with errors := st.errors ++ [undefVarMsg (trimStr part)],
                          hasError := true })
             else (valueToStr (evaluateSimpleExpression st.vars (trimStr part)), st)) := rfl
    rw [hu, if_neg (by simp [hq]), hlook]
    dsimp only
    rw [if_pos hid]
  · intro st L tgt expr hm ha hl
    simp only [execAssign, hm, ha, hl]
  · intro st L tgt expr an ie hm ha hl
    simp only [execAssign, hm, ha, hl]
  · intro fuel lines j hi st h
    exact runLines_hasError fuel lines j hi st h

/-- Witness for C1, one instance per conjunct: `Leer x`, the quoted
part `x`, the assignment `x <- 5`, the array assignment `a[0] <- 5`,
each against an empty store, and a flagged state passing unchanged
through the line loop. -/
theorem undeclared_reference_halts_witness :
    (∃ st₂, executeLine (2 + 1) ["Leer x".data] 0 (initSt []) = some (st₂, 0 + 1) ∧
      st₂.errors = (initSt []).errors ++ [leerUndefMsg "x".data] ∧ st₂.hasError = true) ∧
    evalPart (initSt []) "x".data = ('[' :: "x".data ++ "?]".data,
      { initSt [] with errors := (initSt []).errors ++ [undefVarMsg "x".data],
                       hasError := true }) ∧
    execAssign "x <- 5".data (initSt []) =
      { initSt [] with errors := (initSt []).errors ++ [leerUndefMsg "x".data],
                       hasError := true } ∧
    execAssign "a[0] <- 5".data (initSt []) =
      { initSt [] with errors := (initSt []).errors ++ [arrUndefMsg "a".data],
                       hasError := true } ∧
    runLines 4 ["Escribir 1".data] 0 1 flaggedSt = some flaggedSt :=
  ⟨undeclared_reference_halts.1 2 ["Leer x".data] 0 (initSt []) "x".data [] "x".data []
      rfl rfl rfl rfl rfl rfl rfl rfl rfl (by simp) rfl,
   undeclared_reference_halts.2.1 (initSt []) "x".data rfl rfl rfl,
   undeclared_reference_halts.2.2.1 (initSt []) "x <- 5".data "x".data "5".data rfl rfl rfl,
   undeclared_reference_halts.2.2.2.1 (initSt []) "a[0] <- 5".data "a[0]".data "5".data
      "a".data "0".data rfl rfl rfl,
   undeclared_reference_halts.2.2.2.2 4 ["Escribir 1".data] 0 1 flaggedSt rfl⟩
